import Mathlib

/-!
Verification of the tool-calling agent core in `agent_core.py` (marker/ReAct
variant) and `agent_core_qwen.py` (structured tool-call variant).

Shallow embedding conventions:
* Python JSON values are modeled by the inductive `Json` below.  JSON numbers
  are modeled as integers only: none of the verified properties involve
  floating-point literals, and float parsing/printing is out of scope.
* `json.loads` is embedded as `pyJsonLoads` (a fuel-based recursive-descent
  scanner mirroring the CPython decoder's dispatch: the same whitespace set
  `' ' '\t' '\n' '\r'`, the same literal/number/string/object/array cases).
  Deliberate simplifications, each outside every verified input family:
  `\uXXXX` escapes are rejected rather than decoded, float literals are
  rejected rather than parsed, the leading-zero restriction on ints is not
  enforced, and error messages are representative strings rather than
  CPython's exact texts.
* Python dicts are modeled as association lists with first-match lookup
  (`pyDictGet`) and replace-or-append update (`pyDictSet`), which agrees with
  Python dict get/set/insertion-order when keys are distinct; the verified
  well-formed inputs have distinct keys (`safeJson`).
* A tool handle is a function from keyword arguments and a 1-based attempt
  number to a result or a raised-exception message: the attempt index models
  the fact that a Python callable may behave differently across retries.
* Uncaught Python exceptions are modeled by `Except.error` at the function
  whose caller would see them; caught exceptions are handled at the embedding
  site where the corresponding `try/except` sits in the source.
-/

/-- A Python JSON value (`json.loads` output / `json.dumps` input).  Numbers
are integers only; see the file header for the float caveat. -/
inductive Json where
  | null : Json
  | bool : Bool → Json
  | num : Int → Json
  | str : String → Json
  | arr : List Json → Json
  | obj : List (String × Json) → Json

/-- First-match association-list lookup, modeling `d.get(k)` / `d[k]` on a
Python dict with distinct keys. -/
def pyDictGet {α : Type} (m : List (String × α)) (k : String) : Option α :=
  match m with
  | [] => none
  | (k', v) :: rest => if k' = k then some v else pyDictGet rest k

/-- Replace-or-append association-list update, modeling `d[k] = v` on a Python
dict: an existing key keeps its position, a new key is appended. -/
def pyDictSet {α : Type} (m : List (String × α)) (k : String) (v : α) :
    List (String × α) :=
  match m with
  | [] => [(k, v)]
  | (k', v') :: rest =>
      if k' = k then (k', v) :: rest else (k', v') :: pyDictSet rest k v

/-- The JSON whitespace set of the CPython decoder (`' ' '\t' '\n' '\r'`). -/
def jsonWsChar (c : Char) : Bool :=
  c = ' ' || c = '\t' || c = '\n' || c = '\r'

/-- Drop leading JSON whitespace. -/
def dropJsonWs : List Char → List Char
  | [] => []
  | c :: cs => if jsonWsChar c then dropJsonWs cs else c :: cs

/-- ASCII decimal digit test. -/
def digitChar (c : Char) : Bool := '0' ≤ c && c ≤ '9'

/-- Split a leading run of decimal digits from the rest. -/
def digitsSplit : List Char → List Char × List Char
  | [] => ([], [])
  | c :: cs =>
      if digitChar c then
        let (ds, r) := digitsSplit cs
        (c :: ds, r)
      else ([], c :: cs)

/-- Numeric value of a most-significant-first digit list. -/
def digitsVal (ds : List Char) : Nat :=
  ds.foldl (fun a c => a * 10 + (c.toNat - '0'.toNat)) 0

/-- The character of a decimal digit. -/
def charOfDigit (d : Nat) : Char := Char.ofNat ('0'.toNat + d)

/-- Decimal digit characters of a natural number, most significant first. -/
def natChars (n : Nat) : List Char :=
  if _h : n < 10 then [charOfDigit n]
  else natChars (n / 10) ++ [charOfDigit (n % 10)]
termination_by n
decreasing_by exact Nat.div_lt_self (by omega) (by omega)

/-- Decimal characters of an integer: optional minus sign, then digits.
This is Python's `repr`/JSON form of an int. -/
def intChars (i : Int) : List Char :=
  (if i < 0 then ['-'] else []) ++ natChars i.natAbs

/-- Scan a JSON integer token (embeds the number case of the CPython scanner,
restricted to ints: a trailing `.`/`e`/`E` would start a float literal, which
is outside the modeled fragment and rejected). -/
def scanInt (cs : List Char) : Except String (Json × List Char) :=
  let (neg, cs1) := if cs.headD ' ' = '-' then (true, cs.tail) else (false, cs)
  let (ds, r) := digitsSplit cs1
  if ds.isEmpty then .error "Expecting value"
  else if r.headD ' ' = '.' || r.headD ' ' = 'e' || r.headD ' ' = 'E' then
    .error "float literal outside the modeled fragment"
  else
    let v : Int := digitsVal ds
    .ok (Json.num (if neg then -v else v), r)

/-- One-character JSON string escapes (`\uXXXX` is outside the modeled
fragment and rejected; no verified input uses it). -/
def escChar (c : Char) : Option Char :=
  if c = '"' then some '"'
  else if c = '\\' then some '\\'
  else if c = '/' then some '/'
  else if c = 'b' then some (Char.ofNat 8)
  else if c = 'f' then some (Char.ofNat 12)
  else if c = 'n' then some '\n'
  else if c = 'r' then some '\r'
  else if c = 't' then some '\t'
  else none

/-- Scan the body of a JSON string after the opening quote.  Mirrors the
strict CPython string scanner: a raw control character is an error. -/
def scanStr (acc : List Char) : List Char → Except String (String × List Char)
  | [] => .error "Unterminated string"
  | c :: r =>
      if c = '"' then .ok (String.mk acc.reverse, r)
      else if c = '\\' then
        match r with
        | [] => .error "Unterminated string"
        | e :: r' =>
            match escChar e with
            | some c' => scanStr (c' :: acc) r'
            | none => .error "Invalid escape"
      else if c.toNat < 32 then .error "Invalid control character"
      else scanStr (c :: acc) r

mutual

/-- Scan one JSON value (the CPython `scan_once` dispatch, with the
empty-container checks of `JSONObject`/`JSONArray` inlined).  `fuel` only
bounds recursion depth; every call site supplies enough for the input. -/
def scanVal : Nat → List Char → Except String (Json × List Char)
  | 0, _ => .error "recursion limit"
  | fuel + 1, cs =>
      match dropJsonWs cs with
      | [] => .error "Expecting value"
      | c :: r =>
          if c = '{' then
            match dropJsonWs r with
            | '}' :: r' => .ok (Json.obj [], r')
            | r1 =>
                match scanPairs fuel r1 with
                | .ok (ms, r') => .ok (Json.obj ms, r')
                | .error e => .error e
          else if c = '[' then
            match dropJsonWs r with
            | ']' :: r' => .ok (Json.arr [], r')
            | r1 =>
                match scanItems fuel r1 with
                | .ok (es, r') => .ok (Json.arr es, r')
                | .error e => .error e
          else if c = '"' then
            match scanStr [] r with
            | .ok (s, r') => .ok (Json.str s, r')
            | .error e => .error e
          else if ['n', 'u', 'l', 'l'].isPrefixOf (c :: r) then
            .ok (Json.null, (c :: r).drop 4)
          else if ['t', 'r', 'u', 'e'].isPrefixOf (c :: r) then
            .ok (Json.bool true, (c :: r).drop 4)
          else if ['f', 'a', 'l', 's', 'e'].isPrefixOf (c :: r) then
            .ok (Json.bool false, (c :: r).drop 5)
          else if c = '-' || digitChar c then scanInt (c :: r)
          else .error "Expecting value"

/-- Scan one-or-more `"key": value` members, consuming the closing `}`. -/
def scanPairs : Nat → List Char → Except String (List (String × Json) × List Char)
  | 0, _ => .error "recursion limit"
  | fuel + 1, cs =>
      match cs with
      | '"' :: r =>
          match scanStr [] r with
          | .error e => .error e
          | .ok (k, r1) =>
              match dropJsonWs r1 with
              | ':' :: r2 =>
                  match scanVal fuel r2 with
                  | .error e => .error e
                  | .ok (v, r3) =>
                      match dropJsonWs r3 with
                      | ',' :: r4 =>
                          match scanPairs fuel (dropJsonWs r4) with
                          | .ok (ms, r5) => .ok ((k, v) :: ms, r5)
                          | .error e => .error e
                      | '}' :: r4 => .ok ([(k, v)], r4)
                      | _ => .error "Expecting delimiter"
              | _ => .error "Expecting colon"
      | _ => .error "Expecting property name"

/-- Scan one-or-more array elements, consuming the closing `]`. -/
def scanItems : Nat → List Char → Except String (List Json × List Char)
  | 0, _ => .error "recursion limit"
  | fuel + 1, cs =>
      match scanVal fuel cs with
      | .error e => .error e
      | .ok (el, rest) =>
          match dropJsonWs rest with
          | ',' :: rest1 =>
              match scanItems fuel (dropJsonWs rest1) with
              | .ok (els, rest2) => .ok (el :: els, rest2)
              | .error e => .error e
          | ']' :: rest1 => .ok ([el], rest1)
          | _ => .error "Expecting delimiter"

end

/-- Embedding of `json.loads` on a character list: leading/trailing JSON
whitespace allowed, the whole input must be consumed (`Extra data`
otherwise), and a decode failure is the raised `JSONDecodeError`. -/
def pyJsonLoads (cs : List Char) : Except String Json :=
  match scanVal (cs.length + 1) cs with
  | .error e => .error e
  | .ok (v, rest) =>
      if (dropJsonWs rest).isEmpty then .ok v else .error "Extra data"

mutual

/-- Canonical compact JSON text of a value.  This is the specification-side
generator used to quantify over well-formed embedded JSON objects; it is not
an embedding of repository code. -/
def renderJson : Json → List Char
  | .null => "null".toList
  | .bool true => "true".toList
  | .bool false => "false".toList
  | .num i => intChars i
  | .str s => '"' :: (s.toList ++ ['"'])
  | .arr es => '[' :: (renderItems es ++ [']'])
  | .obj ms => '{' :: (renderPairs ms ++ ['}'])

/-- Comma-separated renderings of array elements. -/
def renderItems : List Json → List Char
  | [] => []
  | [e] => renderJson e
  | e :: es => renderJson e ++ ',' :: renderItems es

/-- Comma-separated renderings of object members. -/
def renderPairs : List (String × Json) → List Char
  | [] => []
  | [(k, v)] => '"' :: (k.toList ++ ['"']) ++ ':' :: renderJson v
  | (k, v) :: ms =>
      '"' :: (k.toList ++ ['"']) ++ ':' :: renderJson v ++ ',' :: renderPairs ms

end

/-- A string character that renders into a JSON string body verbatim:
printable (no control character) and in need of no escaping. -/
def safeChar (c : Char) : Bool :=
  32 ≤ c.toNat && c ≠ '"' && c ≠ '\\'

/-- A string whose canonical rendering is itself, quoted. -/
def safeStr (s : String) : Bool := s.toList.all safeChar

/-- Distinctness of the keys of an object member list (a Python dict holds
each key once). -/
def distinctKeys : List (String × Json) → Bool
  | [] => true
  | (k, _) :: rest => !(rest.any (fun kv => kv.1 = k)) && distinctKeys rest

mutual

/-- Well-formedness of a JSON value for the round-trip theorems: every string
is escape-free and every object has distinct keys. -/
def safeJson : Json → Bool
  | .null => true
  | .bool _ => true
  | .num _ => true
  | .str s => safeStr s
  | .arr es => safeItems es
  | .obj ms => distinctKeys ms && safePairs ms

/-- `safeJson` on every element of a list. -/
def safeItems : List Json → Bool
  | [] => true
  | e :: es => safeJson e && safeItems es

/-- `safeJson` on every member value, with escape-free keys. -/
def safePairs : List (String × Json) → Bool
  | [] => true
  | (k, v) :: ms => safeStr k && safeJson v && safePairs ms

end

/-! ### Round-trip of the JSON codec on canonical renderings

The lemmas below establish that `pyJsonLoads` recovers exactly the value a
canonical rendering denotes, for every `safeJson` value.  They let the
marker-extraction theorems quantify over arbitrary well-formed embedded JSON
objects rather than a fixed example. -/

/-- A remainder that cannot extend an integer token: empty, or headed by a
character that is neither a digit nor `.`/`e`/`E`.  Every JSON delimiter
(`,`, `]`, `}`) and every marker-text continuation qualifies. -/
def intStop : List Char → Bool
  | [] => true
  | c :: _ => !(digitChar c || c = '.' || c = 'e' || c = 'E')

theorem digitChar_toNat {c : Char} (h : digitChar c = true) :
    48 ≤ c.toNat ∧ c.toNat ≤ 57 := by
  simp only [digitChar, Bool.and_eq_true, decide_eq_true_eq, Char.le_def] at h
  exact ⟨h.1, h.2⟩

theorem charOfDigit_spec (d : Nat) (h : d < 10) :
    (charOfDigit d).toNat - '0'.toNat = d ∧ digitChar (charOfDigit d) = true := by
  interval_cases d <;> exact ⟨by decide, by decide⟩

theorem natChars_ne_nil (n : Nat) : natChars n ≠ [] := by
  rw [natChars]
  split
  · simp
  · simp

theorem natChars_digits (n : Nat) : ∀ c ∈ natChars n, digitChar c = true := by
  induction n using Nat.strongRecOn with
  | _ n ih =>
    rw [natChars]
    split
    · intro c hc
      rw [List.mem_singleton] at hc
      subst hc
      exact (charOfDigit_spec n (by omega)).2
    · intro c hc
      rw [List.mem_append] at hc
      rcases hc with hc | hc
      · exact ih (n / 10) (Nat.div_lt_self (by omega) (by omega)) c hc
      · rw [List.mem_singleton] at hc
        subst hc
        exact (charOfDigit_spec (n % 10) (Nat.mod_lt _ (by omega))).2

theorem digitsVal_append_one (ds : List Char) (c : Char) :
    digitsVal (ds ++ [c]) = digitsVal ds * 10 + (c.toNat - '0'.toNat) := by
  simp [digitsVal, List.foldl_append]

theorem digitsVal_natChars (n : Nat) : digitsVal (natChars n) = n := by
  induction n using Nat.strongRecOn with
  | _ n ih =>
    rw [natChars]
    split
    · rename_i h
      simp only [digitsVal, List.foldl_cons, List.foldl_nil]
      rw [(charOfDigit_spec n (by omega)).1]
      omega
    · rename_i h
      rw [digitsVal_append_one, ih (n / 10) (Nat.div_lt_self (by omega) (by omega)),
        (charOfDigit_spec (n % 10) (Nat.mod_lt _ (by omega))).1]
      omega

theorem natChars_head (n : Nat) :
    ∃ c t, natChars n = c :: t ∧ digitChar c = true := by
  cases h : natChars n with
  | nil => exact absurd h (natChars_ne_nil n)
  | cons c t =>
      refine ⟨c, t, rfl, ?_⟩
      exact natChars_digits n c (h ▸ List.mem_cons_self c t)

theorem digitsSplit_eq_self {cs : List Char}
    (h : ∀ c t, cs = c :: t → digitChar c = false) : digitsSplit cs = ([], cs) := by
  cases cs with
  | nil => rfl
  | cons c t =>
      have := h c t rfl
      simp [digitsSplit, this]

theorem intStop_head {c : Char} {t : List Char} (h : intStop (c :: t) = true) :
    digitChar c = false ∧ c ≠ '.' ∧ c ≠ 'e' ∧ c ≠ 'E' := by
  simp only [intStop, Bool.not_eq_true', Bool.or_eq_false_iff,
    decide_eq_false_iff_not] at h
  exact ⟨h.1.1.1, h.1.1.2, h.1.2, h.2⟩

theorem digitsSplit_stop {cs : List Char} (h : intStop cs = true) :
    digitsSplit cs = ([], cs) := by
  apply digitsSplit_eq_self
  intro c t hct
  subst hct
  exact (intStop_head h).1

theorem digitsSplit_run (ds : List Char) (hds : ∀ c ∈ ds, digitChar c = true)
    (rest : List Char) (hrest : digitsSplit rest = ([], rest)) :
    digitsSplit (ds ++ rest) = (ds, rest) := by
  induction ds with
  | nil => simpa using hrest
  | cons c t ih =>
      have hc : digitChar c = true := hds c (List.mem_cons_self c t)
      have ht := ih (fun x hx => hds x (List.mem_cons_of_mem c hx))
      simp [digitsSplit, hc, ht]

theorem digit_not_special {c : Char} (h : digitChar c = true) :
    jsonWsChar c = false ∧ c ≠ ']' ∧ c ≠ '}' ∧ c ≠ ',' ∧ c ≠ '{' ∧ c ≠ '[' ∧
    c ≠ '"' ∧ c ≠ 'n' ∧ c ≠ 't' ∧ c ≠ 'f' ∧ c ≠ '-' := by
  have hr := digitChar_toNat h
  refine ⟨?_, ?_, ?_, ?_, ?_, ?_, ?_, ?_, ?_, ?_, ?_⟩
  · simp only [jsonWsChar, Bool.or_eq_false_iff, decide_eq_false_iff_not]
    refine ⟨⟨⟨?_, ?_⟩, ?_⟩, ?_⟩ <;> (rintro rfl; simp at hr)
  all_goals (rintro rfl; revert h; decide)

/-- The number codec round-trip: `scanInt` inverts `intChars` whenever the
remainder cannot extend the token. -/
theorem scanInt_intChars (i : Int) (rest : List Char) (hr : intStop rest = true) :
    scanInt (intChars i ++ rest) = .ok (Json.num i, rest) := by
  have hsplit : digitsSplit (natChars i.natAbs ++ rest) = (natChars i.natAbs, rest) :=
    digitsSplit_run _ (natChars_digits _) _ (digitsSplit_stop hr)
  have hmt : (natChars i.natAbs).isEmpty = false := by
    cases h : natChars i.natAbs with
    | nil => exact absurd h (natChars_ne_nil _)
    | cons c t => rfl
  have hrestHead : (rest.headD ' ' = '.' || rest.headD ' ' = 'e' ||
      rest.headD ' ' = 'E') = false := by
    cases rest with
    | nil => decide
    | cons c t =>
        obtain ⟨_, h1, h2, h3⟩ := intStop_head hr
        simp [h1, h2, h3]
  by_cases hneg : i < 0
  · have harg : intChars i ++ rest = '-' :: (natChars i.natAbs ++ rest) := by
      simp [intChars, hneg]
    rw [harg]
    simp only [scanInt, List.headD_cons, List.tail_cons, if_pos rfl, hsplit, hmt,
      Bool.false_eq_true, if_false, hrestHead, if_true]
    have : -(digitsVal (natChars i.natAbs) : Int) = i := by
      rw [digitsVal_natChars]
      omega
    simp [this]
  · obtain ⟨c, t, hn, hc⟩ := natChars_head i.natAbs
    have hcm : c ≠ '-' := (digit_not_special hc).2.2.2.2.2.2.2.2.2.2
    have harg : intChars i ++ rest = c :: (t ++ rest) := by
      simp [intChars, hneg, hn]
    rw [harg]
    have hsplit' : digitsSplit (c :: (t ++ rest)) = (c :: t, rest) := by
      have := hsplit
      rw [hn, List.cons_append] at this
      exact this
    have hmt' : (c :: t).isEmpty = false := rfl
    simp only [scanInt, List.headD_cons, if_neg hcm, hsplit', hmt',
      Bool.false_eq_true, if_false, hrestHead, if_true]
    have : (digitsVal (c :: t) : Int) = i := by
      have := digitsVal_natChars i.natAbs
      rw [hn] at this
      rw [this]
      omega
    simp [this]

theorem safeChar_facts {c : Char} (h : safeChar c = true) :
    c ≠ '"' ∧ c ≠ '\\' ∧ ¬ c.toNat < 32 := by
  simp only [safeChar, Bool.and_eq_true, decide_eq_true_eq] at h
  exact ⟨by simpa using h.1.2, by simpa using h.2, by omega⟩

/-- The string codec round-trip: scanning a rendered escape-free string body
recovers it, stopping at the closing quote. -/
theorem scanStr_safe (s : List Char) (hs : ∀ c ∈ s, safeChar c = true) :
    ∀ (acc rest : List Char),
      scanStr acc (s ++ '"' :: rest) = .ok (String.mk (acc.reverse ++ s), rest) := by
  induction s with
  | nil =>
      intro acc rest
      simp only [List.nil_append, List.append_nil]
      rw [scanStr.eq_def]
      simp
  | cons c t ih =>
      intro acc rest
      obtain ⟨h1, h2, h3⟩ := safeChar_facts (hs c (List.mem_cons_self c t))
      have iht := ih (fun x hx => hs x (List.mem_cons_of_mem c hx)) (c :: acc) rest
      rw [List.cons_append, scanStr.eq_def]
      simp only [if_neg h1, if_neg h2, if_neg h3, iht]
      simp

theorem dropJsonWs_cons_not {c : Char} (r : List Char) (h : jsonWsChar c = false) :
    dropJsonWs (c :: r) = c :: r := by
  simp [dropJsonWs, h]

theorem litPrefix_ne {p c : Char} (ps rest : List Char) (h : p ≠ c) :
    ¬ ((p :: ps).isPrefixOf (c :: rest) = true) := by
  simp [List.isPrefixOf, h]

/-- The `null` literal case of the scanner. -/
theorem scanVal_null (f : Nat) (rest : List Char) :
    scanVal (f + 1) ('n' :: 'u' :: 'l' :: 'l' :: rest) = .ok (Json.null, rest) := by
  rw [scanVal.eq_def]
  simp only [dropJsonWs_cons_not _ (show jsonWsChar 'n' = false from by decide)]
  simp only [if_neg (show ¬ ('n' = '{') from by decide),
    if_neg (show ¬ ('n' = '[') from by decide),
    if_neg (show ¬ ('n' = '"') from by decide),
    if_pos (show (['n', 'u', 'l', 'l'].isPrefixOf
      ('n' :: 'u' :: 'l' :: 'l' :: rest)) = true from by simp [List.isPrefixOf]),
    List.drop_succ_cons, List.drop_zero]

/-- The `true` literal case of the scanner. -/
theorem scanVal_true (f : Nat) (rest : List Char) :
    scanVal (f + 1) ('t' :: 'r' :: 'u' :: 'e' :: rest) = .ok (Json.bool true, rest) := by
  rw [scanVal.eq_def]
  simp only [dropJsonWs_cons_not _ (show jsonWsChar 't' = false from by decide)]
  simp only [if_neg (show ¬ ('t' = '{') from by decide),
    if_neg (show ¬ ('t' = '[') from by decide),
    if_neg (show ¬ ('t' = '"') from by decide),
    if_neg (litPrefix_ne _ _ (show 'n' ≠ 't' from by decide)),
    if_pos (show (['t', 'r', 'u', 'e'].isPrefixOf
      ('t' :: 'r' :: 'u' :: 'e' :: rest)) = true from by simp [List.isPrefixOf]),
    List.drop_succ_cons, List.drop_zero]

/-- The `false` literal case of the scanner. -/
theorem scanVal_bfalse (f : Nat) (rest : List Char) :
    scanVal (f + 1) ('f' :: 'a' :: 'l' :: 's' :: 'e' :: rest) =
      .ok (Json.bool false, rest) := by
  rw [scanVal.eq_def]
  simp only [dropJsonWs_cons_not _ (show jsonWsChar 'f' = false from by decide)]
  simp only [if_neg (show ¬ ('f' = '{') from by decide),
    if_neg (show ¬ ('f' = '[') from by decide),
    if_neg (show ¬ ('f' = '"') from by decide),
    if_neg (litPrefix_ne _ _ (show 'n' ≠ 'f' from by decide)),
    if_neg (litPrefix_ne _ _ (show 't' ≠ 'f' from by decide)),
    if_pos (show (['f', 'a', 'l', 's', 'e'].isPrefixOf
      ('f' :: 'a' :: 'l' :: 's' :: 'e' :: rest)) = true from by simp [List.isPrefixOf]),
    List.drop_succ_cons, List.drop_zero]

/-- A digit head dispatches the scanner to the number token. -/
theorem scanVal_digit (f : Nat) (rest : List Char) (c : Char)
    (h : digitChar c = true) :
    scanVal (f + 1) (c :: rest) = scanInt (c :: rest) := by
  obtain ⟨hws, _, _, _, h1, h2, h3, h4, h5, h6, _⟩ := digit_not_special h
  rw [scanVal.eq_def]
  simp only [dropJsonWs_cons_not _ hws]
  simp only [if_neg h1, if_neg h2, if_neg h3,
    if_neg (litPrefix_ne _ _ (Ne.symm h4)),
    if_neg (litPrefix_ne _ _ (Ne.symm h5)),
    if_neg (litPrefix_ne _ _ (Ne.symm h6)),
    if_pos (show (c = '-' || digitChar c) = true from by simp [h])]

/-- A minus-sign head dispatches the scanner to the number token. -/
theorem scanVal_minus (f : Nat) (rest : List Char) :
    scanVal (f + 1) ('-' :: rest) = scanInt ('-' :: rest) := by
  rw [scanVal.eq_def]
  simp only [dropJsonWs_cons_not _ (show jsonWsChar '-' = false from by decide)]
  simp only [if_neg (show ¬ ('-' = '{') from by decide),
    if_neg (show ¬ ('-' = '[') from by decide),
    if_neg (show ¬ ('-' = '"') from by decide),
    if_neg (litPrefix_ne _ _ (show 'n' ≠ '-' from by decide)),
    if_neg (litPrefix_ne _ _ (show 't' ≠ '-' from by decide)),
    if_neg (litPrefix_ne _ _ (show 'f' ≠ '-' from by decide)),
    if_pos (show ('-' = '-' || digitChar '-') = true from by decide)]
  simp

/-- The whole-number scanner case: `scanVal` inverts `intChars`. -/
theorem scanVal_int (f : Nat) (i : Int) (rest : List Char)
    (hr : intStop rest = true) :
    scanVal (f + 1) (intChars i ++ rest) = .ok (Json.num i, rest) := by
  by_cases hneg : i < 0
  · have harg : intChars i ++ rest = '-' :: (natChars i.natAbs ++ rest) := by
      simp [intChars, hneg]
    rw [harg, scanVal_minus, ← harg, scanInt_intChars i rest hr]
  · obtain ⟨c, t, hn, hc⟩ := natChars_head i.natAbs
    have harg : intChars i ++ rest = c :: (t ++ rest) := by
      simp [intChars, hneg, hn]
    rw [harg, scanVal_digit _ _ _ hc, ← harg, scanInt_intChars i rest hr]

/-- The string case of the scanner, delegated to `scanStr`. -/
theorem scanVal_quote (f : Nat) (s : List Char) (v : String) (r' : List Char)
    (hs : scanStr [] s = .ok (v, r')) :
    scanVal (f + 1) ('"' :: s) = .ok (Json.str v, r') := by
  rw [scanVal.eq_def]
  simp only [dropJsonWs_cons_not _ (show jsonWsChar '"' = false from by decide)]
  simp only [show ('"' = '{') = False from by decide,
    show ('"' = '[') = False from by decide, if_false, if_pos rfl, hs]
  simp

/-- The empty-object case of the scanner. -/
theorem scanVal_obj_empty (f : Nat) (rest r' : List Char)
    (hd : dropJsonWs rest = '}' :: r') :
    scanVal (f + 1) ('{' :: rest) = .ok (Json.obj [], r') := by
  rw [scanVal.eq_def]
  simp only [dropJsonWs_cons_not _ (show jsonWsChar '{' = false from by decide)]
  simp only [if_pos rfl, hd]
  simp

/-- The nonempty-object case of the scanner, delegated to `scanPairs`. -/
theorem scanVal_obj_go (f : Nat) (rest r1 : List Char) (ms : List (String × Json))
    (c0 : Char) (r2 : List Char) (hd : dropJsonWs rest = c0 :: r2) (hne : c0 ≠ '}')
    (hp : scanPairs f (c0 :: r2) = .ok (ms, r1)) :
    scanVal (f + 1) ('{' :: rest) = .ok (Json.obj ms, r1) := by
  rw [scanVal.eq_def]
  simp only [dropJsonWs_cons_not _ (show jsonWsChar '{' = false from by decide)]
  simp only [if_pos rfl, hd]
  simp only [ite_true]
  split
  · rename_i r3 heq
    injection heq with hh _
    exact absurd hh hne
  · simp only [hp]

/-- The empty-array case of the scanner. -/
theorem scanVal_arr_empty (f : Nat) (rest r' : List Char)
    (hd : dropJsonWs rest = ']' :: r') :
    scanVal (f + 1) ('[' :: rest) = .ok (Json.arr [], r') := by
  rw [scanVal.eq_def]
  simp only [dropJsonWs_cons_not _ (show jsonWsChar '[' = false from by decide)]
  simp only [if_neg (show ¬ ('[' = '{') from by decide), if_pos rfl, hd]
  simp

/-- The nonempty-array case of the scanner, delegated to `scanItems`. -/
theorem scanVal_arr_go (f : Nat) (rest r1 : List Char) (es : List Json)
    (c0 : Char) (r2 : List Char) (hd : dropJsonWs rest = c0 :: r2) (hne : c0 ≠ ']')
    (hp : scanItems f (c0 :: r2) = .ok (es, r1)) :
    scanVal (f + 1) ('[' :: rest) = .ok (Json.arr es, r1) := by
  rw [scanVal.eq_def]
  simp only [dropJsonWs_cons_not _ (show jsonWsChar '[' = false from by decide)]
  simp only [if_neg (show ¬ ('[' = '{') from by decide), if_pos rfl, hd]
  simp only [ite_true]
  split
  · rename_i r3 heq
    injection heq with hh _
    exact absurd hh hne
  · simp only [hp]

/-- The single-element case of the element scanner. -/
theorem scanItems_one (f : Nat) (cs : List Char) (e : Json) (rest : List Char)
    (hval : scanVal f cs = .ok (e, ']' :: rest)) :
    scanItems (f + 1) cs = .ok ([e], rest) := by
  rw [scanItems.eq_def]
  simp only [hval]
  rfl

/-- The cons case of the element scanner. -/
theorem scanItems_more (f : Nat) (cs : List Char) (e : Json) (r' : List Char)
    (vs : List Json) (rest : List Char)
    (hval : scanVal f cs = .ok (e, ',' :: r'))
    (hrec : scanItems f (dropJsonWs r') = .ok (vs, rest)) :
    scanItems (f + 1) cs = .ok (e :: vs, rest) := by
  rw [scanItems.eq_def]
  simp only [hval, dropJsonWs_cons_not _ (show jsonWsChar ',' = false from by decide),
    hrec]

/-- The single-member case of the member scanner. -/
theorem scanPairs_one (f : Nat) (s : List Char) (k : String) (r1 r2 : List Char)
    (v : Json) (r3 rest : List Char)
    (hk : scanStr [] s = .ok (k, r1))
    (hcolon : dropJsonWs r1 = ':' :: r2)
    (hval : scanVal f r2 = .ok (v, r3))
    (hsep : dropJsonWs r3 = '}' :: rest) :
    scanPairs (f + 1) ('"' :: s) = .ok ([(k, v)], rest) := by
  rw [scanPairs.eq_def]
  simp only [hk, hcolon, hval, hsep]

/-- The cons case of the member scanner. -/
theorem scanPairs_more (f : Nat) (s : List Char) (k : String) (r1 r2 : List Char)
    (v : Json) (r3 r4 : List Char) (ms : List (String × Json)) (rest : List Char)
    (hk : scanStr [] s = .ok (k, r1))
    (hcolon : dropJsonWs r1 = ':' :: r2)
    (hval : scanVal f r2 = .ok (v, r3))
    (hsep : dropJsonWs r3 = ',' :: r4)
    (hrec : scanPairs f (dropJsonWs r4) = .ok (ms, rest)) :
    scanPairs (f + 1) ('"' :: s) = .ok ((k, v) :: ms, rest) := by
  rw [scanPairs.eq_def]
  simp only [hk, hcolon, hval, hsep, hrec]

/-- The separator-and-tail of a rendered element list after its first element. -/
def sepItems : List Json → List Char
  | [] => []
  | es => ',' :: renderItems es

/-- The separator-and-tail of a rendered member list after its first member. -/
def sepPairs : List (String × Json) → List Char
  | [] => []
  | ms => ',' :: renderPairs ms

theorem renderItems_cons (e : Json) (es : List Json) :
    renderItems (e :: es) = renderJson e ++ sepItems es := by
  cases es with
  | nil => simp [renderItems, sepItems]
  | cons x xs => simp [renderItems, sepItems]

theorem renderPairs_cons (k : String) (v : Json) (ms : List (String × Json)) :
    renderPairs ((k, v) :: ms) =
      '"' :: (k.toList ++ ['"']) ++ ':' :: (renderJson v ++ sepPairs ms) := by
  cases ms with
  | nil => simp [renderPairs, sepPairs]
  | cons x xs => simp [renderPairs, sepPairs]

/-- Every canonical rendering begins with a non-whitespace character that is
not a closing bracket. -/
theorem renderJson_head (v : Json) :
    ∃ c t, renderJson v = c :: t ∧ jsonWsChar c = false ∧ c ≠ ']' ∧ c ≠ '}' := by
  cases v with
  | null =>
      exact ⟨'n', ['u', 'l', 'l'], by simp [renderJson], by decide, by decide, by decide⟩
  | bool b =>
      cases b with
      | true =>
          exact ⟨'t', ['r', 'u', 'e'], by simp [renderJson], by decide, by decide,
            by decide⟩
      | false =>
          exact ⟨'f', ['a', 'l', 's', 'e'], by simp [renderJson], by decide, by decide,
            by decide⟩
  | num i =>
      by_cases hneg : i < 0
      · refine ⟨'-', natChars i.natAbs, ?_, by decide, by decide, by decide⟩
        simp [renderJson, intChars, hneg]
      · obtain ⟨c, t, hn, hc⟩ := natChars_head i.natAbs
        obtain ⟨hws, hbr, hbc, _⟩ := digit_not_special hc
        refine ⟨c, t, ?_, hws, hbr, hbc⟩
        simp [renderJson, intChars, hneg, hn]
  | str s =>
      exact ⟨'"', s.toList ++ ['"'], by simp [renderJson], by decide, by decide,
        by decide⟩
  | arr es =>
      exact ⟨'[', renderItems es ++ [']'], by simp [renderJson], by decide, by decide,
        by decide⟩
  | obj ms =>
      exact ⟨'{', renderPairs ms ++ ['}'], by simp [renderJson], by decide, by decide,
        by decide⟩

theorem dropJsonWs_render (v : Json) (x : List Char) :
    dropJsonWs (renderJson v ++ x) = renderJson v ++ x := by
  obtain ⟨c, t, hh, hws, _, _⟩ := renderJson_head v
  rw [hh, List.cons_append]
  exact dropJsonWs_cons_not _ hws

theorem intStop_close (x : List Char) : intStop (']' :: x) = true := rfl

theorem intStop_cbrace (x : List Char) : intStop ('}' :: x) = true := rfl

theorem intStop_comma (x : List Char) : intStop (',' :: x) = true := rfl

/-- Round-trip of the codec at every fuel level: scanning a canonical
rendering (of a `safeJson` value, a nonempty element list, or a nonempty
member list) recovers exactly the rendered data. -/
theorem scan_render (fuel : Nat) :
    (∀ v rest, safeJson v = true → (renderJson v).length < fuel →
      intStop rest = true →
      scanVal fuel (renderJson v ++ rest) = .ok (v, rest))
    ∧ (∀ e es rest, safeItems (e :: es) = true →
        (renderItems (e :: es)).length + 1 < fuel →
        scanItems fuel (renderItems (e :: es) ++ ']' :: rest) = .ok (e :: es, rest))
    ∧ (∀ k v ms rest, safePairs ((k, v) :: ms) = true →
        (renderPairs ((k, v) :: ms)).length + 1 < fuel →
        scanPairs fuel (renderPairs ((k, v) :: ms) ++ '}' :: rest) =
          .ok ((k, v) :: ms, rest)) := by
  induction fuel using Nat.strongRecOn with
  | _ fuel ih =>
  refine ⟨?_, ?_, ?_⟩
  · intro v rest hsafe hlen hstop
    obtain ⟨f, rfl⟩ : ∃ f, fuel = f + 1 := ⟨fuel - 1, by omega⟩
    cases v with
    | null =>
        have harg : renderJson Json.null ++ rest = 'n' :: 'u' :: 'l' :: 'l' :: rest := by
          simp [renderJson]
        rw [harg]
        exact scanVal_null f rest
    | bool b =>
        cases b with
        | true =>
            have harg : renderJson (Json.bool true) ++ rest =
                't' :: 'r' :: 'u' :: 'e' :: rest := by
              simp [renderJson]
            rw [harg]
            exact scanVal_true f rest
        | false =>
            have harg : renderJson (Json.bool false) ++ rest =
                'f' :: 'a' :: 'l' :: 's' :: 'e' :: rest := by
              simp [renderJson]
            rw [harg]
            exact scanVal_bfalse f rest
    | num i =>
        have harg : renderJson (Json.num i) ++ rest = intChars i ++ rest := by
          simp [renderJson]
        rw [harg]
        exact scanVal_int f i rest hstop
    | str s =>
        have hsc : ∀ c ∈ s.toList, safeChar c = true := by
          have hss : safeStr s = true := by simpa [safeJson] using hsafe
          simpa [safeStr, List.all_eq_true] using hss
        have hscan := scanStr_safe s.toList hsc [] ('"' :: rest).tail
        have hscan' : scanStr [] (s.toList ++ '"' :: rest) = .ok (s, rest) := by
          simpa using scanStr_safe s.toList hsc [] rest
        have harg : renderJson (Json.str s) ++ rest =
            '"' :: (s.toList ++ '"' :: rest) := by
          simp [renderJson]
        rw [harg]
        exact scanVal_quote f _ s rest hscan'
    | arr es =>
        cases es with
        | nil =>
            have harg : renderJson (Json.arr []) ++ rest = '[' :: (']' :: rest) := by
              simp [renderJson, renderItems]
            rw [harg]
            exact scanVal_arr_empty f (']' :: rest) rest
              (dropJsonWs_cons_not _ (by decide))
        | cons e es' =>
            have hsi : safeItems (e :: es') = true := by
              simpa [safeJson] using hsafe
            have hlen' : (renderItems (e :: es')).length + 1 < f := by
              have : (renderJson (Json.arr (e :: es'))).length =
                  (renderItems (e :: es')).length + 2 := by
                simp [renderJson]
              omega
            obtain ⟨c0, t0, hh, hws, hbr, hbc⟩ := renderJson_head e
            have hitems : renderItems (e :: es') ++ ']' :: rest =
                c0 :: (t0 ++ sepItems es' ++ ']' :: rest) := by
              rw [renderItems_cons, hh]
              simp [List.append_assoc]
            have harg : renderJson (Json.arr (e :: es')) ++ rest =
                '[' :: (renderItems (e :: es') ++ ']' :: rest) := by
              simp [renderJson]
            rw [harg]
            refine scanVal_arr_go f _ rest (e :: es') c0
              (t0 ++ sepItems es' ++ ']' :: rest) ?_ hbr ?_
            · rw [hitems]
              exact dropJsonWs_cons_not _ hws
            · rw [← hitems]
              exact (ih f (by omega)).2.1 e es' rest hsi hlen'
    | obj ms =>
        cases ms with
        | nil =>
            have harg : renderJson (Json.obj []) ++ rest = '{' :: ('}' :: rest) := by
              simp [renderJson, renderPairs]
            rw [harg]
            exact scanVal_obj_empty f ('}' :: rest) rest
              (dropJsonWs_cons_not _ (by decide))
        | cons kv ms' =>
            obtain ⟨k, v⟩ := kv
            have hsp : safePairs ((k, v) :: ms') = true := by
              have := hsafe
              simp only [safeJson, Bool.and_eq_true] at this
              exact this.2
            have hlen' : (renderPairs ((k, v) :: ms')).length + 1 < f := by
              have : (renderJson (Json.obj ((k, v) :: ms'))).length =
                  (renderPairs ((k, v) :: ms')).length + 2 := by
                simp [renderJson]
              omega
            have hpairs : renderPairs ((k, v) :: ms') ++ '}' :: rest =
                '"' :: ((k.toList ++ ['"']) ++ ':' :: (renderJson v ++ sepPairs ms')
                  ++ '}' :: rest) := by
              rw [renderPairs_cons]
              simp [List.append_assoc]
            have harg : renderJson (Json.obj ((k, v) :: ms')) ++ rest =
                '{' :: (renderPairs ((k, v) :: ms') ++ '}' :: rest) := by
              simp [renderJson]
            rw [harg]
            refine scanVal_obj_go f _ rest ((k, v) :: ms') '"'
              ((k.toList ++ ['"']) ++ ':' :: (renderJson v ++ sepPairs ms')
                ++ '}' :: rest) ?_ (by decide) ?_
            · rw [hpairs]
              exact dropJsonWs_cons_not _ (by decide)
            · rw [← hpairs]
              exact (ih f (by omega)).2.2 k v ms' rest hsp hlen'
  · intro e es rest hsafe hlen
    obtain ⟨f, rfl⟩ : ∃ f, fuel = f + 1 := ⟨fuel - 1, by omega⟩
    have hse : safeJson e = true := by
      have := hsafe
      simp only [safeItems, Bool.and_eq_true] at this
      exact this.1
    cases es with
    | nil =>
        have harg : renderItems [e] ++ ']' :: rest = renderJson e ++ ']' :: rest := by
          simp [renderItems]
        have hlen' : (renderJson e).length < f := by
          have : renderItems [e] = renderJson e := by simp [renderItems]
          rw [this] at hlen
          omega
        have hval := (ih f (by omega)).1 e (']' :: rest) hse hlen' (intStop_close rest)
        rw [harg]
        exact scanItems_one f _ e rest hval
    | cons x xs =>
        have hsx : safeItems (x :: xs) = true := by
          simp only [safeItems, Bool.and_eq_true] at hsafe ⊢
          exact hsafe.2
        have hsplit : renderItems (e :: x :: xs) =
            renderJson e ++ ',' :: renderItems (x :: xs) := by
          simp [renderItems]
        have hlen1 : (renderJson e).length < f := by
          rw [hsplit] at hlen
          simp [List.length_append] at hlen
          omega
        have hlen2 : (renderItems (x :: xs)).length + 1 < f := by
          rw [hsplit] at hlen
          simp [List.length_append] at hlen
          omega
        have harg : renderItems (e :: x :: xs) ++ ']' :: rest =
            renderJson e ++ ',' :: (renderItems (x :: xs) ++ ']' :: rest) := by
          rw [hsplit]
          simp [List.append_assoc]
        have hval := (ih f (by omega)).1 e
          (',' :: (renderItems (x :: xs) ++ ']' :: rest)) hse hlen1 (intStop_comma _)
        have hdrop : dropJsonWs (renderItems (x :: xs) ++ ']' :: rest) =
            renderItems (x :: xs) ++ ']' :: rest := by
          obtain ⟨c0, t0, hh, hws, _, _⟩ := renderJson_head x
          rw [renderItems_cons, hh]
          simp only [List.cons_append, List.append_assoc]
          exact dropJsonWs_cons_not _ hws
        have hrec : scanItems f (dropJsonWs (renderItems (x :: xs) ++ ']' :: rest)) =
            .ok (x :: xs, rest) := by
          rw [hdrop]
          exact (ih f (by omega)).2.1 x xs rest hsx hlen2
        rw [harg]
        exact scanItems_more f _ e _ (x :: xs) rest hval hrec
  · intro k v ms rest hsafe hlen
    obtain ⟨f, rfl⟩ : ∃ f, fuel = f + 1 := ⟨fuel - 1, by omega⟩
    have hsk : safeStr k = true := by
      have := hsafe
      simp only [safePairs, Bool.and_eq_true] at this
      exact this.1.1
    have hsv : safeJson v = true := by
      have := hsafe
      simp only [safePairs, Bool.and_eq_true] at this
      exact this.1.2
    have hskc : ∀ c ∈ k.toList, safeChar c = true := by
      simpa [safeStr, List.all_eq_true] using hsk
    cases ms with
    | nil =>
        have harg : renderPairs [(k, v)] ++ '}' :: rest =
            '"' :: (k.toList ++ '"' :: (':' :: (renderJson v ++ '}' :: rest))) := by
          rw [renderPairs_cons]
          simp [sepPairs, List.append_assoc]
        have hk : scanStr [] (k.toList ++ '"' :: (':' :: (renderJson v ++ '}' :: rest))) =
            .ok (k, ':' :: (renderJson v ++ '}' :: rest)) := by
          simpa using scanStr_safe k.toList hskc []
            (':' :: (renderJson v ++ '}' :: rest))
        have hlenv : (renderJson v).length < f := by
          rw [renderPairs_cons] at hlen
          simp [sepPairs, List.length_append] at hlen
          omega
        have hval := (ih f (by omega)).1 v ('}' :: rest) hsv hlenv (intStop_cbrace _)
        rw [harg]
        exact scanPairs_one f _ k _ _ v _ rest hk
          (dropJsonWs_cons_not _ (by decide)) hval
          (dropJsonWs_cons_not _ (by decide))
    | cons kv2 ms2 =>
        obtain ⟨k2, v2⟩ := kv2
        have hsp2 : safePairs ((k2, v2) :: ms2) = true := by
          simp only [safePairs, Bool.and_eq_true] at hsafe ⊢
          exact hsafe.2
        have harg : renderPairs ((k, v) :: (k2, v2) :: ms2) ++ '}' :: rest =
            '"' :: (k.toList ++ '"' :: (':' :: (renderJson v ++
              ',' :: (renderPairs ((k2, v2) :: ms2) ++ '}' :: rest)))) := by
          rw [renderPairs_cons]
          simp [sepPairs, List.append_assoc]
        have hk : scanStr [] (k.toList ++ '"' :: (':' :: (renderJson v ++
            ',' :: (renderPairs ((k2, v2) :: ms2) ++ '}' :: rest)))) =
            .ok (k, ':' :: (renderJson v ++
              ',' :: (renderPairs ((k2, v2) :: ms2) ++ '}' :: rest))) := by
          simpa using scanStr_safe k.toList hskc []
            (':' :: (renderJson v ++
              ',' :: (renderPairs ((k2, v2) :: ms2) ++ '}' :: rest)))
        have hlenv : (renderJson v).length < f := by
          rw [renderPairs_cons] at hlen
          simp [sepPairs, List.length_append] at hlen
          omega
        have hlen2 : (renderPairs ((k2, v2) :: ms2)).length + 1 < f := by
          rw [renderPairs_cons] at hlen
          simp [sepPairs, List.length_append] at hlen
          omega
        have hval := (ih f (by omega)).1 v
          (',' :: (renderPairs ((k2, v2) :: ms2) ++ '}' :: rest)) hsv hlenv
          (intStop_comma _)
        have hdrop : dropJsonWs (renderPairs ((k2, v2) :: ms2) ++ '}' :: rest) =
            renderPairs ((k2, v2) :: ms2) ++ '}' :: rest := by
          rw [renderPairs_cons]
          simp only [List.cons_append, List.append_assoc]
          exact dropJsonWs_cons_not _ (by decide)
        have hrec : scanPairs f
            (dropJsonWs (renderPairs ((k2, v2) :: ms2) ++ '}' :: rest)) =
            .ok ((k2, v2) :: ms2, rest) := by
          rw [hdrop]
          exact (ih f (by omega)).2.2 k2 v2 ms2 rest hsp2 hlen2
        rw [harg]
        exact scanPairs_more f _ k _ _ v _ _ ((k2, v2) :: ms2) rest hk
          (dropJsonWs_cons_not _ (by decide)) hval
          (dropJsonWs_cons_not _ (by decide)) hrec

/-- `json.loads` recovers every `safeJson` value from its canonical rendering. -/
theorem pyJsonLoads_render (v : Json) (hs : safeJson v = true) :
    pyJsonLoads (renderJson v) = .ok v := by
  have h := (scan_render ((renderJson v).length + 1)).1 v [] hs (by omega) rfl
  rw [List.append_nil] at h
  simp [pyJsonLoads, h, dropJsonWs]

/-! ### The marker-format extraction of `agent_core.py` (`Agent._parse_action`)

`_parse_action` applies two regular expressions and `json.loads`:

* `re.search(r"Thought:\s*(.*?)\nAction:", text, re.DOTALL)` — embedded by
  `searchThoughtG`.  Derivation of the embedding from the backtracking
  semantics: `re.search` matches at the leftmost `Thought:` occurrence that
  any completion exists for; a completion exists iff `\nAction:` occurs in
  the text after it.  There, greedy `\s*` takes the longest feasible
  whitespace run `k = min W M` (`W` the whitespace-run length, `M` the last
  `\nAction:` occurrence), and lazy `(.*?)` then ends the group at the first
  `\nAction:` occurrence at or after `k`.
* `re.search(r"Action:\s*({.*?})\s*Observation:", text, re.DOTALL | re.MULTILINE)`
  — embedded by `searchActionG`.  At each candidate `Action:` position in
  turn, `\s*` must end exactly at a `{` (a brace is not whitespace, so no
  backtracking choice exists), and the lazy body ends at the first `}` that
  is followed by whitespace and then the literal `Observation:`.

Python's `\s` and `str.strip` are modeled on the ASCII range (the verified
inputs contain no exotic Unicode whitespace). -/

/-- Python's `\s` class, ASCII range: space, `\t`, `\n`, `\r`, `\x0b`, `\x0c`. -/
def reWsChar (c : Char) : Bool :=
  c = ' ' || c = '\t' || c = '\n' || c = '\r' ||
  c = Char.ofNat 11 || c = Char.ofNat 12

/-- Drop a leading run of `\s` whitespace. -/
def dropReWs : List Char → List Char
  | [] => []
  | c :: cs => if reWsChar c then dropReWs cs else c :: cs

/-- Length of the leading `\s` whitespace run. -/
def reWsRunLen : List Char → Nat
  | [] => 0
  | c :: cs => if reWsChar c then reWsRunLen cs + 1 else 0

/-- Python `str.strip()`: drop leading and trailing whitespace. -/
def pyStripChars (s : List Char) : List Char :=
  (dropReWs (dropReWs s).reverse).reverse

/-- Index of the first occurrence of `pat` in `s`, if any. -/
def firstOccurIdx (pat : List Char) : List Char → Option Nat
  | [] => if pat.isEmpty then some 0 else none
  | s@(_ :: rest) =>
      if pat.isPrefixOf s then some 0
      else (firstOccurIdx pat rest).map (· + 1)

/-- Index of the last occurrence of `pat` in `s`, if any. -/
def lastOccurIdx (pat : List Char) : List Char → Option Nat
  | [] => if pat.isEmpty then some 0 else none
  | s@(_ :: rest) =>
      match lastOccurIdx pat rest with
      | some i => some (i + 1)
      | none => if pat.isPrefixOf s then some 0 else none

/-- The literal `Thought:`. -/
def thoughtTag : List Char := "Thought:".toList

/-- The literal `\nAction:` required after the lazy thought group. -/
def nlActionTag : List Char := "\nAction:".toList

/-- The literal `Action:`. -/
def actionTag : List Char := "Action:".toList

/-- The literal `Observation:`. -/
def obsTag : List Char := "Observation:".toList

/-- Embeds the thought regex (see the section header): the trimmed-later
group(1) text, or `none` when the pattern does not match. -/
def searchThoughtG (s : List Char) : Option (List Char) :=
  match firstOccurIdx thoughtTag s with
  | none => none
  | some i =>
      let rest := s.drop (i + 8)
      match lastOccurIdx nlActionTag rest with
      | none => none
      | some m =>
          let k := min (reWsRunLen rest) m
          match firstOccurIdx nlActionTag (rest.drop k) with
          | some p => some ((rest.drop k).take p)
          | none => none

/-- Does `\s*Observation:` match here?  (The tail of the action regex.) -/
def obsAfter (cs : List Char) : Bool := obsTag.isPrefixOf (dropReWs cs)

/-- Scan the lazy `{.*?}` body: stop at the first `}` whose continuation
matches `\s*Observation:`, returning the whole braced group. -/
def scanGroup (acc : List Char) : List Char → Option (List Char)
  | [] => none
  | c :: cs =>
      if c = '}' && obsAfter cs then some ('{' :: (acc.reverse ++ ['}']))
      else scanGroup (c :: acc) cs

/-- Attempt the action regex anchored at this position. -/
def actionMatchAt (s : List Char) : Option (List Char) :=
  if actionTag.isPrefixOf s then
    match dropReWs (s.drop 7) with
    | '{' :: r => scanGroup [] r
    | _ => none
  else none

/-- Embeds the action regex (see the section header): the braced group(1), or
`none` when the pattern does not match anywhere. -/
def searchActionG : List Char → Option (List Char)
  | [] => none
  | s@(_ :: rest) =>
      match actionMatchAt s with
      | some g => some g
      | none => searchActionG rest

/-- Embeds `Agent._parse_action` of `agent_core.py` (lines 92-123): extract
the thought (placeholder `"No thought."` when the thought regex fails),
extract and strip the action JSON text (`None` when the action regex fails
or the stripped group is falsy), `json.loads` it (`None` on a decode error,
via the surrounding `try/except`), and return the parsed dict with the
thought stored under the `"thought"` key (a non-dict parse also raises into
the `except` and yields `None`). -/
def parseActionM (text : String) : Option (List (String × Json)) :=
  let ts := text.toList
  let thought : String :=
    match searchThoughtG ts with
    | some g => String.mk (pyStripChars g)
    | none => "No thought."
  match searchActionG ts with
  | none => none
  | some g =>
      let actionStr := pyStripChars g
      if actionStr.isEmpty then none
      else
        match pyJsonLoads actionStr with
        | .ok (Json.obj kvs) => some (pyDictSet kvs "thought" (Json.str thought))
        | _ => none

theorem dropReWs_cons_not {c : Char} (r : List Char) (h : reWsChar c = false) :
    dropReWs (c :: r) = c :: r := by
  simp [dropReWs, h]

theorem dropReWs_suffix (l : List Char) : dropReWs l <:+ l := by
  induction l with
  | nil => exact List.suffix_refl _
  | cons c cs ih =>
      by_cases h : reWsChar c = true
      · simp only [dropReWs, h, if_true]
        exact ih.trans (List.suffix_cons c cs)
      · rw [dropReWs_cons_not _ (by simpa using h)]

theorem dropReWs_append (a b : List Char) :
    dropReWs (a ++ b) =
      if (dropReWs a).isEmpty then dropReWs b else dropReWs a ++ b := by
  induction a with
  | nil => simp [dropReWs]
  | cons c cs ih =>
      by_cases h : reWsChar c = true
      · simp only [List.cons_append, dropReWs, h, if_true]
        exact ih
      · rw [List.cons_append, dropReWs_cons_not _ (by simpa using h),
          dropReWs_cons_not _ (by simpa using h)]
        simp

/-- A pattern-prefix of `A ++ c :: y` longer than `A` covers `A` and the
boundary character `c`. -/
theorem prefix_across {pat A y : List Char} {c : Char}
    (hp : pat <+: A ++ c :: y) (hlen : A.length < pat.length) :
    A <+: pat ∧ c ∈ pat := by
  have hpt : pat = (A ++ c :: y).take pat.length := List.prefix_iff_eq_take.mp hp
  constructor
  · have : pat.take A.length = A := by
      rw [hpt, List.take_take, min_eq_left (le_of_lt hlen),
        List.take_append_of_le_length (le_refl _), List.take_length]
    rw [← this]
    exact List.take_prefix _ _
  · have hidx : A.length < (A ++ c :: y).length := by
      simp [List.length_append]
    have hA : (A ++ c :: y)[A.length] = c := by
      rw [List.getElem_append]
      simp
    have hg : pat[A.length] = (A ++ c :: y)[A.length] :=
      List.IsPrefix.getElem hp hlen
    rw [hA] at hg
    rw [← hg]
    exact List.getElem_mem _

/-- No occurrence of a newline-free, nowhere-in-`pre` pattern can start inside
`pre ++ '\n' :: s` before `s`. -/
theorem no_occurrence_front {pat pre s : List Char} {i : Nat}
    (hni : ¬ pat <:+: pre) (hnl : '\n' ∉ pat)
    (hi : i < pre.length + 1) :
    pat.isPrefixOf (List.drop i (pre ++ '\n' :: s)) = false := by
  by_contra hcon
  have htrue : pat.isPrefixOf (List.drop i (pre ++ '\n' :: s)) = true := by
    simpa using hcon
  have hp : pat <+: List.drop i (pre ++ '\n' :: s) :=
    List.isPrefixOf_iff_prefix.mp htrue
  have hile : i ≤ pre.length := by omega
  rw [List.drop_append_of_le_length hile] at hp
  rcases le_or_lt pat.length (pre.drop i).length with hle | hlt
  · have hpa : pat <+: pre.drop i := by
      have hpt := List.prefix_iff_eq_take.mp hp
      have heq : pat = (pre.drop i).take pat.length := by
        conv_lhs => rw [hpt]
        rw [List.take_append_of_le_length hle]
      nth_rewrite 1 [heq]
      exact List.take_prefix _ _
    exact hni (List.infix_iff_prefix_suffix.mpr
      ⟨pre.drop i, hpa, List.drop_suffix i pre⟩)
  · obtain ⟨_, hmem⟩ := prefix_across hp hlt
    exact hnl hmem

/-- The action regex search skips positions where no match can start. -/
theorem searchActionG_skip (pre s : List Char)
    (h : ∀ i, i < pre.length →
      actionTag.isPrefixOf (List.drop i (pre ++ s)) = false) :
    searchActionG (pre ++ s) = searchActionG s := by
  induction pre with
  | nil => simp
  | cons c cs ih =>
      have h0 : actionTag.isPrefixOf (c :: (cs ++ s)) = false := by
        have := h 0 (by simp)
        simpa using this
      have hm : actionMatchAt (c :: (cs ++ s)) = none := by
        simp [actionMatchAt, h0]
      rw [List.cons_append, searchActionG, hm]
      exact ih (fun i hi => by
        have := h (i + 1) (by simp; omega)
        simpa using this)

/-- If `Action:` occurs nowhere in the text, the action regex fails. -/
theorem searchActionG_none (s : List Char) (h : ¬ actionTag <:+: s) :
    searchActionG s = none := by
  induction s with
  | nil => rfl
  | cons c cs ih =>
      have h0 : actionTag.isPrefixOf (c :: cs) = false := by
        by_contra hb
        exact h ((List.isPrefixOf_iff_prefix.mp (by simpa using hb)).isInfix)
      have hm : actionMatchAt (c :: cs) = none := by
        simp [actionMatchAt, h0]
      rw [searchActionG, hm]
      exact ih (fun hin => h (List.infix_cons hin))

/-- `scanGroup` passes through a body none of whose `}` splits is followed by
`\s*Observation:`. -/
theorem scanGroup_through (after : List Char) :
    ∀ (body acc : List Char),
      (∀ a b, body = a ++ '}' :: b → obsAfter (b ++ after) = false) →
      scanGroup acc (body ++ after) = scanGroup (body.reverse ++ acc) after := by
  intro body
  induction body with
  | nil => intro acc _; simp
  | cons c cs ih =>
      intro acc hbody
      by_cases hc : c = '}'
      · have hobs : obsAfter (cs ++ after) = false := by
          apply hbody []
          rw [hc]
          rfl
        rw [List.cons_append, scanGroup, hc]
        simp only [hobs, Bool.and_false, Bool.false_eq_true, if_false]
        have := ih (c :: acc) (fun a b hab => hbody (c :: a) b (by rw [hab, hc]; rfl))
        rw [hc] at this
        rw [this]
        simp
      · rw [List.cons_append, scanGroup]
        rw [if_neg (by simp [hc])]
        have := ih (c :: acc) (fun a b hab => hbody (c :: a) b (by rw [hab]; rfl))
        rw [this]
        simp

/-- A split of a text free of `Observation:` at a `}` never satisfies the
`\s*Observation:` continuation within the braced body. -/
theorem obsAfter_split_false {mid : List Char} (hO : ¬ obsTag <:+: mid)
    {a b : List Char} (hsplit : mid = a ++ '}' :: b) (y : List Char) :
    obsAfter (b ++ '}' :: y) = false := by
  rw [Bool.eq_false_iff]
  intro htrue
  rw [obsAfter, dropReWs_append] at htrue
  by_cases hemp : (dropReWs b).isEmpty = true
  · rw [if_pos hemp, dropReWs_cons_not _ (by decide)] at htrue
    have := List.isPrefixOf_iff_prefix.mp htrue
    rw [show obsTag = 'O' :: "bservation:".toList from rfl] at this
    obtain ⟨u, hu⟩ := this
    simp at hu
  · rw [if_neg hemp] at htrue
    have hp : obsTag <+: dropReWs b ++ '}' :: y :=
      List.isPrefixOf_iff_prefix.mp htrue
    have hbmid : b <:+: mid := ⟨a ++ ['}'], [], by simp [hsplit]⟩
    rcases le_or_lt obsTag.length (dropReWs b).length with hle | hlt
    · have hpa : obsTag <+: dropReWs b := by
        have hpt := List.prefix_iff_eq_take.mp hp
        have heq : obsTag = (dropReWs b).take obsTag.length := by
          conv_lhs => rw [hpt]
          rw [List.take_append_of_le_length hle]
        nth_rewrite 1 [heq]
        exact List.take_prefix _ _
      have : obsTag <:+: b :=
        List.infix_iff_prefix_suffix.mpr ⟨dropReWs b, hpa, dropReWs_suffix b⟩
      exact hO (this.trans hbmid)
    · obtain ⟨_, hmem⟩ := prefix_across hp hlt
      have : ('}' ∈ obsTag) = False := by decide
      rw [this] at hmem
      exact hmem

/-- One step of the action search at a matching position. -/
theorem searchActionG_cons_found {c : Char} {rest g : List Char}
    (h : actionMatchAt (c :: rest) = some g) :
    searchActionG (c :: rest) = some g := by
  rw [searchActionG, h]

/-- The action regex anchored at the canonical `Action: ` segment captures
exactly the rendered JSON object. -/
theorem actionMatchAt_canonical (ms : List (String × Json))
    (hO : ¬ obsTag <:+: renderPairs ms) :
    actionMatchAt ("Action: ".toList ++ (renderJson (Json.obj ms) ++
      '\n' :: "Observation: ".toList)) = some (renderJson (Json.obj ms)) := by
  have hpre : actionTag.isPrefixOf ("Action: ".toList ++
      (renderJson (Json.obj ms) ++ '\n' :: "Observation: ".toList)) = true := by
    rw [show "Action: ".toList = actionTag ++ [' '] from rfl]
    rw [List.isPrefixOf_iff_prefix, List.append_assoc]
    exact List.prefix_append _ _
  rw [actionMatchAt, if_pos hpre]
  have hdrop : (("Action: ".toList ++ (renderJson (Json.obj ms) ++
      '\n' :: "Observation: ".toList)).drop 7) =
      ' ' :: (renderJson (Json.obj ms) ++ '\n' :: "Observation: ".toList) := by
    rw [show "Action: ".toList =
      'A' :: 'c' :: 't' :: 'i' :: 'o' :: 'n' :: ':' :: [' '] from rfl]
    simp
  rw [hdrop]
  have hrender : renderJson (Json.obj ms) = '{' :: (renderPairs ms ++ ['}']) := by
    simp [renderJson]
  have hd1 : dropReWs (' ' :: (renderJson (Json.obj ms) ++
      '\n' :: "Observation: ".toList)) =
      renderJson (Json.obj ms) ++ '\n' :: "Observation: ".toList := by
    rw [show dropReWs (' ' :: (renderJson (Json.obj ms) ++
      '\n' :: "Observation: ".toList)) = dropReWs (renderJson (Json.obj ms) ++
      '\n' :: "Observation: ".toList) from by simp [dropReWs, reWsChar]]
    rw [hrender, List.cons_append]
    exact dropReWs_cons_not _ (by decide)
  rw [hd1, hrender, List.cons_append]
  have hassoc : (renderPairs ms ++ ['}']) ++ '\n' :: "Observation: ".toList =
      renderPairs ms ++ '}' :: ('\n' :: "Observation: ".toList) := by
    simp
  rw [hassoc]
  have hthrough := scanGroup_through ('}' :: ('\n' :: "Observation: ".toList))
    (renderPairs ms) []
    (fun a b hab => obsAfter_split_false hO hab ('\n' :: "Observation: ".toList))
  show scanGroup [] (renderPairs ms ++ '}' :: '\n' :: "Observation: ".toList) =
    some ('{' :: (renderPairs ms ++ ['}']))
  rw [hthrough, scanGroup]
  rw [if_pos (show ('}' = '}' && obsAfter ('\n' :: "Observation: ".toList)) = true
    from by decide)]
  simp

/-- The canonical well-formed marker text: a `Thought:` line, an `Action:`
line carrying a JSON text, and the `Observation:` sentinel, exactly as the
mock model response of `agent_core.py` is shaped. -/
def mkMarker (t j : String) : String :=
  "Thought: " ++ t ++ "\nAction: " ++ j ++ "\nObservation: "

theorem mkMarker_toList (t j : String) :
    (mkMarker t j).toList =
      ("Thought: " ++ t).toList ++
        '\n' :: ("Action: ".toList ++ (j.toList ++ '\n' :: "Observation: ".toList)) := by
  have tl : ∀ a b : String, (a ++ b).toList = a.toList ++ b.toList :=
    fun a b => String.data_append a b
  unfold mkMarker
  rw [tl, tl, tl, tl]
  rw [show "\nAction: ".toList = '\n' :: "Action: ".toList from rfl,
    show "\nObservation: ".toList = '\n' :: "Observation: ".toList from rfl]
  simp [List.append_assoc]

/-- The action regex on a canonical marker text captures exactly the embedded
JSON text, provided `Action:` does not occur in the thought part and
`Observation:` does not occur inside the rendered object. -/
theorem searchActionG_mkMarker (t : String) (ms : List (String × Json))
    (hA : ¬ actionTag <:+: ("Thought: " ++ t).toList)
    (hO : ¬ obsTag <:+: renderPairs ms) :
    searchActionG (mkMarker t (String.mk (renderJson (Json.obj ms)))).toList =
      some (renderJson (Json.obj ms)) := by
  rw [mkMarker_toList]
  rw [show (String.mk (renderJson (Json.obj ms))).toList =
    renderJson (Json.obj ms) from rfl]
  rw [show ("Thought: " ++ t).toList ++
      '\n' :: ("Action: ".toList ++ (renderJson (Json.obj ms) ++
        '\n' :: "Observation: ".toList)) =
      (("Thought: " ++ t).toList ++ ['\n']) ++
      ("Action: ".toList ++ (renderJson (Json.obj ms) ++
        '\n' :: "Observation: ".toList)) from by simp]
  rw [searchActionG_skip]
  · rw [show "Action: ".toList ++ (renderJson (Json.obj ms) ++
        '\n' :: "Observation: ".toList) =
      'A' :: ("ction: ".toList ++ (renderJson (Json.obj ms) ++
        '\n' :: "Observation: ".toList)) from rfl]
    exact searchActionG_cons_found
      (show actionMatchAt ('A' :: ("ction: ".toList ++ (renderJson (Json.obj ms) ++
        '\n' :: "Observation: ".toList))) =
        some (renderJson (Json.obj ms)) from actionMatchAt_canonical ms hO)
  · intro i hi
    rw [show (("Thought: " ++ t).toList ++ ['\n']) ++
      ("Action: ".toList ++ (renderJson (Json.obj ms) ++
        '\n' :: "Observation: ".toList)) =
      ("Thought: " ++ t).toList ++
      '\n' :: ("Action: ".toList ++ (renderJson (Json.obj ms) ++
        '\n' :: "Observation: ".toList)) from by simp]
    apply no_occurrence_front hA (by decide)
    simpa using hi

/-- `str.strip()` is the identity on a rendered JSON object (it begins with
`{` and ends with `}`). -/
theorem pyStrip_render (ms : List (String × Json)) :
    pyStripChars (renderJson (Json.obj ms)) = renderJson (Json.obj ms) := by
  have hrender : renderJson (Json.obj ms) = '{' :: (renderPairs ms ++ ['}']) := by
    simp [renderJson]
  rw [pyStripChars, hrender, dropReWs_cons_not _ (by decide)]
  rw [show ('{' :: (renderPairs ms ++ ['}'])).reverse =
    '}' :: ((renderPairs ms).reverse ++ ['{']) from by simp]
  rw [dropReWs_cons_not _ (by decide)]
  simp

theorem pyDictGet_set_ne {α : Type} (m : List (String × α)) (k k' : String)
    (v : α) (h : k ≠ k') : pyDictGet (pyDictSet m k v) k' = pyDictGet m k' := by
  induction m with
  | nil => simp [pyDictSet, pyDictGet, h]
  | cons kv rest ih =>
      obtain ⟨a, b⟩ := kv
      by_cases ha : a = k
      · subst ha
        simp [pyDictSet, pyDictGet, h]
      · simp [pyDictSet, pyDictGet, ha, ih]

/-- Extraction on a canonical marker text succeeds and returns the embedded
object with the thought stored under `"thought"`. -/
theorem parseActionM_mkMarker (t : String) (ms : List (String × Json))
    (hsafe : safeJson (Json.obj ms) = true)
    (hA : ¬ actionTag <:+: ("Thought: " ++ t).toList)
    (hO : ¬ obsTag <:+: renderPairs ms) :
    ∃ th : String,
      parseActionM (mkMarker t (String.mk (renderJson (Json.obj ms)))) =
        some (pyDictSet ms "thought" (Json.str th)) := by
  simp only [parseActionM, searchActionG_mkMarker t ms hA hO, pyStrip_render,
    show (renderJson (Json.obj ms)).isEmpty = false from by
      simp [renderJson, List.isEmpty],
    pyJsonLoads_render _ hsafe, Bool.false_eq_true, if_false]
  exact ⟨_, rfl⟩

/-! ### `json.dumps` and Python `str()` rendering -/

/-- Hex digit character (lowercase), for control-character escapes. -/
def hexDigitChar (n : Nat) : Char :=
  if n < 10 then Char.ofNat (48 + n) else Char.ofNat (87 + n)

/-- One character of a dumped JSON string.  `ensure_ascii` escaping of
non-ASCII characters is not modeled (no verified property inspects the dumped
form of non-ASCII data beyond opaque equality). -/
def dumpEsc (c : Char) : List Char :=
  if c = '"' then ['\\', '"']
  else if c = '\\' then ['\\', '\\']
  else if c = '\n' then ['\\', 'n']
  else if c = '\r' then ['\\', 'r']
  else if c = '\t' then ['\\', 't']
  else if c.toNat < 32 then
    ['\\', 'u', '0', '0', hexDigitChar (c.toNat / 16), hexDigitChar (c.toNat % 16)]
  else [c]

mutual

/-- `json.dumps` with the default separators `", "` and `": "`. -/
def dumpsJson : Json → List Char
  | .null => "null".toList
  | .bool true => "true".toList
  | .bool false => "false".toList
  | .num i => intChars i
  | .str s => '"' :: ((s.toList.map dumpEsc).flatten ++ ['"'])
  | .arr es => '[' :: (dumpsItems es ++ [']'])
  | .obj ms => '{' :: (dumpsPairs ms ++ ['}'])

/-- Array elements of a dump, `", "`-separated. -/
def dumpsItems : List Json → List Char
  | [] => []
  | [e] => dumpsJson e
  | e :: es => dumpsJson e ++ ',' :: ' ' :: dumpsItems es

/-- Object members of a dump, `", "`-separated with `": "` after each key. -/
def dumpsPairs : List (String × Json) → List Char
  | [] => []
  | [(k, v)] =>
      '"' :: ((k.toList.map dumpEsc).flatten ++ ['"']) ++ ':' :: ' ' :: dumpsJson v
  | (k, v) :: ms =>
      '"' :: ((k.toList.map dumpEsc).flatten ++ ['"']) ++ ':' :: ' ' :: dumpsJson v
        ++ ',' :: ' ' :: dumpsPairs ms

end

/-- `json.dumps` as a string. -/
def jsonDumps (j : Json) : String := String.mk (dumpsJson j)

/-- Python `str()` of a loaded-JSON value, as interpolated by an f-string.
Containers are approximated by their dumped form (Python would use `repr`
with single quotes); no verified property inspects that case. -/
def pyStrOfJson : Json → String
  | .null => "None"
  | .bool true => "True"
  | .bool false => "False"
  | .num i => String.mk (intChars i)
  | .str s => s
  | j => jsonDumps j

/-- Python `str()` of a value-or-`None`. -/
def pyStrOfOptJson : Option Json → String
  | none => "None"
  | some j => pyStrOfJson j

/-! ### The execution engine of `agent_core.py` (`Agent._execute_action`) -/

/-- A registered tool handle: a Python callable invoked with keyword
arguments.  The `Nat` argument is the 1-based attempt number, modeling that
a callable may succeed or raise differently across the retry loop's
invocations; `Except.error` carries `str(e)` of the raised exception. -/
def Handle : Type := List (String × Json) → Nat → Except String Json

/-- The invocation `tool_func(**tool_input)`: unpacking a non-dict raises a
`TypeError` inside the `try`, otherwise the handle itself runs. -/
def invokeOf (f : Handle) (toolInput : Json) : Nat → Except String Json :=
  fun attempt =>
    match toolInput with
    | Json.obj kvs => f kvs attempt
    | _ => Except.error "TypeError: argument unpacking requires a mapping"

/-- The success observation `json.dumps({"status": "success", "result": r})`. -/
def successObs (v : Json) : String :=
  jsonDumps (Json.obj [("status", Json.str "success"), ("result", v)])

/-- The failure observation `json.dumps({"status": "error", "message": m})`. -/
def errorObs (e : String) : String :=
  jsonDumps (Json.obj [("status", Json.str "error"), ("message", Json.str e)])

/-- The retry loop of `_execute_action` (lines 140-154 of `agent_core.py`):
`for attempt in range(1, max_retries + 1)`, returning the observation
string; the second component counts the handle invocations actually
performed.  `fuel` is the number of loop iterations left
(`max_retries - attempt + 1`); the fuel-exhausted case is the dead
`return "Unknown execution error."` after the loop. -/
def attemptLoopM (invoke : Nat → Except String Json) : Nat → Nat → String × Nat
  | _, 0 => ("Unknown execution error.", 0)
  | attempt, fuel + 1 =>
      match invoke attempt with
      | .ok v => (successObs v, 1)
      | .error e =>
          if fuel = 0 then (errorObs e, 1)
          else
            let r := attemptLoopM invoke (attempt + 1) fuel
            (r.1, r.2 + 1)

/-- Embeds `Agent._execute_action` of `agent_core.py` (lines 125-154).
`Except.error` models an uncaught exception (only possible when
`action["tool"]` is an unhashable value, which the `in` test raises on);
otherwise the returned pair is the observation string and the number of
handle invocations performed. -/
def executeActionM (tools : List (String × Handle)) (maxRetries : Nat)
    (action : List (String × Json)) : Except String (String × Nat) :=
  let toolName := pyDictGet action "tool"
  let toolInput := (pyDictGet action "parameters").getD (Json.obj [])
  match toolName with
  | some (Json.arr _) => .error "TypeError: unhashable type: list"
  | some (Json.obj _) => .error "TypeError: unhashable type: dict"
  | _ =>
      match (match toolName with
             | some (Json.str s) => pyDictGet tools s
             | _ => none) with
      | none =>
          .ok ("Error: 工具 '" ++ pyStrOfOptJson toolName ++ "' 未注册或不存在。", 0)
      | some f => .ok (attemptLoopM (invokeOf f toolInput) 1 maxRetries)

/-! ### The registration path (`Agent.register_tool`, both variants) -/

/-- A Python type annotation, as looked up in the `type_map` dicts. -/
inductive PyTy where
  | int : PyTy
  | float : PyTy
  | str : PyTy
  | bool : PyTy
  | list : PyTy
  | dict : PyTy
  | tuple : PyTy
  | set : PyTy
  | other : String → PyTy
  deriving DecidableEq

/-- The `type_map` of `agent_core.py` (lines 50-59). -/
def typeMapCore : PyTy → Option String
  | .int => some "integer"
  | .float => some "number"
  | .str => some "string"
  | .bool => some "boolean"
  | .list => some "array"
  | .dict => some "object"
  | .tuple => some "array"
  | .set => some "array"
  | .other _ => none

/-- The `type_map` of `agent_core_qwen.py` (lines 41-47): no `dict`, `tuple`
or `set` entries. -/
def typeMapQwen : PyTy → Option String
  | .int => some "integer"
  | .float => some "number"
  | .str => some "string"
  | .bool => some "boolean"
  | .list => some "array"
  | _ => none

/-- One declared parameter of a registered function, as `inspect.signature`
and `get_type_hints` expose it: its name, its type hint (if any), and
whether it has a default value. -/
structure PyParam where
  name : String
  hint : Option PyTy
  hasDefault : Bool
  deriving DecidableEq

/-- A Python function as the registration path sees it. -/
structure PyFunc where
  name : String
  doc : Option String
  params : List PyParam

/-- `type_map.get(hint, "string")` where `hint = hints.get(name)`. -/
def jsonTypeOf (tm : PyTy → Option String) (hint : Option PyTy) : String :=
  (hint.bind tm).getD "string"

/-- The generated property description `f"参数{name}的类型是{json_type}"`. -/
def paramDesc (n ty : String) : String := "参数" ++ n ++ "的类型是" ++ ty

/-- The registration loop over `sig.parameters` (both variants, identical
logic): skip `self`; give every other parameter a property entry
`(name, json_type, description)`; append the name to `required` iff the
parameter has no default. -/
def schemaFields (tm : PyTy → Option String) :
    List PyParam → List (String × String × String) × List String
  | [] => ([], [])
  | p :: rest =>
      let (props, req) := schemaFields tm rest
      if p.name = "self" then (props, req)
      else
        ((p.name, jsonTypeOf tm p.hint, paramDesc p.name (jsonTypeOf tm p.hint))
            :: props,
          if p.hasDefault then req else p.name :: req)

/-- The generated tool schema (`name` / `description` / `parameters`). -/
structure ToolSchema where
  name : String
  description : String
  properties : List (String × String × String)
  required : List String

/-- `(func.__doc__ or "").strip()`. -/
def pyStripStr (s : String) : String := String.mk (pyStripChars s.toList)

/-- The schema `register_tool` derives for a function. -/
def mkToolSchema (tm : PyTy → Option String) (f : PyFunc) : ToolSchema :=
  let fields := schemaFields tm f.params
  { name := f.name
    description := pyStripStr (f.doc.getD "")
    properties := fields.1
    required := fields.2 }

/-! ### The marker-variant agent (`agent_core.py`) -/

/-- The agent state of `agent_core.py`: the tools dict, the schema list, and
`max_retries` (set to 3 in `__init__`).  The conversation list exists in the
source but is never read or written by this variant's pipeline. -/
structure MarkerAgent where
  tools : List (String × Handle)
  toolSchemas : List ToolSchema
  maxRetries : Nat

/-- `Agent.register_tool` of `agent_core.py` (lines 38-90): store the handle
under `func.__name__` (silently replacing any previous one) and append the
derived schema to the advertised list. -/
def registerToolM (ag : MarkerAgent) (f : PyFunc) (h : Handle) : MarkerAgent :=
  { ag with
    tools := pyDictSet ag.tools f.name h
    toolSchemas := ag.toolSchemas ++ [mkToolSchema typeMapCore f] }

/-- ASCII `str.lower` (the verified inputs contain no cased non-ASCII). -/
def pyLowerChar (c : Char) : Char :=
  if 'A' ≤ c ∧ c ≤ 'Z' then Char.ofNat (c.toNat + 32) else c

/-- Substring test (`pat in s` on Python strings). -/
def hasInfix (pat : List Char) : List Char → Bool
  | [] => pat.isEmpty
  | s@(_ :: rest) => pat.isPrefixOf s || hasInfix pat rest

/-- `Agent._mock_llm_response` of `agent_core.py` (lines 185-198): the
weather text when the lowered input contains `天气`, the addition text
otherwise. -/
def mockLlmResponse (userInput : String) : String :=
  if hasInfix "天气".toList (userInput.toList.map pyLowerChar) then
    "Thought: 用户想知道北京的天气，我应该调用天气查询工具。\nAction: \x7b\"tool\": \"get_weather\", \"parameters\": \x7b\"city\": \"Beijing\"\x7d\x7d\nObservation: "
  else
    "Thought: 用户想计算 3+5，我应该使用计算器。\nAction: \x7b\"tool\": \"add\", \"parameters\": \x7b\"a\": 3, \"b\": 5\x7d\x7d\nObservation: "

/-- `Agent._mock_generate_reply` of `agent_core.py` (lines 201-215):
`json.loads` the observation; on any failure (decode error, non-dict,
missing key — all caught by the bare `except`) return the fixed fallback;
otherwise branch on `obs["status"] == "success"`. -/
def mockGenerateReply (thought observation : String) : String :=
  match pyJsonLoads observation.toList with
  | .error _ => "⚠️ 无法解析执行结果。"
  | .ok obs =>
      match obs with
      | Json.obj kvs =>
          match pyDictGet kvs "status" with
          | none => "⚠️ 无法解析执行结果。"
          | some st =>
              let isSuccess : Bool :=
                match st with
                | Json.str s => s == "success"
                | _ => false
              if isSuccess then
                match pyDictGet kvs "result" with
                | none => "⚠️ 无法解析执行结果。"
                | some r => "✅ 操作成功，结果是：" ++ pyStrOfJson r
              else
                match pyDictGet kvs "message" with
                | none => "⚠️ 无法解析执行结果。"
                | some m => "❌ 操作失败：" ++ pyStrOfJson m
      | _ => "⚠️ 无法解析执行结果。"

/-- `Agent.run` of `agent_core.py` (lines 156-183): mock model response,
extraction, execution, reply generation.  `Except.error` models an uncaught
exception propagating out of `run`. -/
def runMarker (ag : MarkerAgent) (userInput : String) : Except String String :=
  let resp := mockLlmResponse userInput
  match parseActionM resp with
  | none => .ok "Agent 未能生成有效的 Action。"
  | some action =>
      match pyDictGet action "thought" with
      | none => .error "KeyError: 'thought'"
      | some th =>
          match executeActionM ag.tools ag.maxRetries action with
          | .error e => .error e
          | .ok result => .ok (mockGenerateReply (pyStrOfJson th) result.1)

/-! ### The structured-variant agent (`agent_core_qwen.py`)

The completion envelope returned by the backend client is modeled
structurally (`QwenResponse`), at the shape the OpenAI-compatible API
guarantees; the `model_dump_json`/`json.loads` serialization round-trip of
that envelope is an external-boundary detail and is not modeled. -/

/-- One `tool_calls` entry at the API shape: `function.name` and
`function.arguments` (each possibly absent; `.get("name", "")` defaults the
name to `""`, `.get("arguments")` yields `None`). -/
structure QwenToolCall where
  name : Option String
  arguments : Option String

/-- One `choices` entry: `message.tool_calls` (absent, or a list) and
`finish_reason`. -/
structure QwenChoice where
  toolCalls : Option (List QwenToolCall)
  finishReason : Option String

/-- The completion envelope: its `choices` list. -/
structure QwenResponse where
  choices : List QwenChoice

/-- `Agent._parse_action` of `agent_core_qwen.py` (lines 133-144): requires a
nonempty `choices` whose first entry has a truthy (nonempty) `tool_calls`;
yields the entries plus the `finish_reason` as the thought. -/
def parseActionQwen (r : QwenResponse) :
    Option (List QwenToolCall × Option String) :=
  match r.choices with
  | [] => none
  | c :: _ =>
      match c.toolCalls with
      | some (tc :: tcs) => some (tc :: tcs, c.finishReason)
      | _ => none

/-- `json.loads(action.get("function", {}).get("arguments"))`: loading
`None` raises a `TypeError`, a present string is decoded. -/
def qwenLoadArgs : Option String → Except String Json
  | none => .error "TypeError: the JSON object must be str, not NoneType"
  | some s => pyJsonLoads s.toList

/-- The inner retry loop of the structured `_execute_action` (lines 156-170):
like `attemptLoopM` but producing the Python value stored into
`result[name]` — a success dict, or `str(e)` of the last failure.  `none`
models the loop body never running (only possible at `max_retries = 0`, when
`result[name]` is never assigned). -/
def attemptLoopQ (invoke : Nat → Except String Json) : Nat → Nat → Option (Json × Nat)
  | _, 0 => none
  | attempt, fuel + 1 =>
      match invoke attempt with
      | .ok v => some (Json.obj [("status", Json.str "success"), ("result", v)], 1)
      | .error e =>
          if fuel = 0 then some (Json.str e, 1)
          else
            match attemptLoopQ invoke (attempt + 1) fuel with
            | some r => some (r.1, r.2 + 1)
            | none => none

/-- One iteration of the structured `_execute_action` loop (lines 148-173)
over a `tool_calls` entry: decode the arguments (a decode failure is caught
by the outer `except`, storing `str(e)` with no retry), check registration
(the raised `ValueError` is caught the same way), else run the retry loop.
Returns the updated result dict and the number of handle invocations. -/
def qwenProcessOne (tools : List (String × Handle)) (maxRetries : Nat)
    (tc : QwenToolCall) (result : List (String × Json)) :
    List (String × Json) × Nat :=
  let name := tc.name.getD ""
  match qwenLoadArgs tc.arguments with
  | .error e => (pyDictSet result name (Json.str e), 0)
  | .ok args =>
      match pyDictGet tools name with
      | none =>
          (pyDictSet result name (Json.str ("执行工具" ++ name ++ "未被注册")), 0)
      | some f =>
          match attemptLoopQ (invokeOf f args) 1 maxRetries with
          | none => (result, 0)
          | some r => (pyDictSet result name r.1, r.2)

/-- The loop of the structured `_execute_action` over all entries, threading
the result dict; the second component totals the handle invocations. -/
def qwenExecuteLoop (tools : List (String × Handle)) (maxRetries : Nat) :
    List QwenToolCall → List (String × Json) → List (String × Json) × Nat
  | [], result => (result, 0)
  | tc :: rest, result =>
      let step := qwenProcessOne tools maxRetries tc result
      let more := qwenExecuteLoop tools maxRetries rest step.1
      (more.1, step.2 + more.2)

/-- `Agent._execute_action` of `agent_core_qwen.py` (lines 146-175): the
result dict built from an empty start, dumped by `json.dumps` on return. -/
def qwenExecuteDump (tools : List (String × Handle)) (maxRetries : Nat)
    (tcs : List QwenToolCall) : String :=
  jsonDumps (Json.obj (qwenExecuteLoop tools maxRetries tcs []).1)

/-- The fixed system message both variants initialize the conversation with. -/
def sysMessage : String × String :=
  ("system", "你是一个智能助手，请根据用户的问题，使用工具回答问题。")

/-- The initial conversation state: the system message alone. -/
def initMessages : List (String × String) := [sysMessage]

/-- The agent state of `agent_core_qwen.py`. -/
structure QwenAgent where
  tools : List (String × Handle)
  toolSchemas : List ToolSchema
  maxRetries : Nat
  messages : List (String × String)

/-- `Agent.register_tool` of `agent_core_qwen.py` (lines 35-77): same
behavior as the marker variant, with the qwen type map (the schema is
wrapped in a `{"type": "function", "function": ...}` envelope whose only
content is the inner schema). -/
def registerToolQ (ag : QwenAgent) (f : PyFunc) (h : Handle) : QwenAgent :=
  { ag with
    tools := pyDictSet ag.tools f.name h
    toolSchemas := ag.toolSchemas ++ [mkToolSchema typeMapQwen f] }

/-- `Agent.run` of `agent_core_qwen.py` (lines 108-131).  The two backend
calls are oracles over the message list they receive (`llm` models
`_qwen_llm_response`'s completion, `gen` models `_qwen_generate_reply`'s
reply text); the message appends those helpers perform are inlined here.
The final `self.messages` reset is unconditional on both branches. -/
def qwenRun (llm : List (String × String) → QwenResponse)
    (gen : List (String × String) → String)
    (ag : QwenAgent) (userInput : String) : QwenAgent × String :=
  let m1 := ag.messages ++ [("user", userInput)]
  let resp := llm m1
  match parseActionQwen resp with
  | none => ({ ag with messages := initMessages }, "Agent 未能生成有效的 Action。")
  | some parsed =>
      let thought := pyStrOfOptJson (parsed.2.map Json.str)
      let observation := qwenExecuteDump ag.tools ag.maxRetries parsed.1
      let m2 := m1 ++ [("assistant",
        "大模型的选择是：" ++ thought ++ "，工具执行结果是：" ++ observation ++
          "，请总结并输出最终答案")]
      let reply := gen m2
      ({ ag with messages := initMessages }, reply)

/-! ### Behavior of the retry loops -/

theorem attemptLoopM_success (invoke : Nat → Except String Json) :
    ∀ (d n a : Nat) (v : Json), d < n →
      (∀ j, j < d → ∃ e, invoke (a + j) = .error e) →
      invoke (a + d) = .ok v →
      attemptLoopM invoke a n = (successObs v, d + 1) := by
  intro d
  induction d with
  | zero =>
      intro n a v hd _ hok
      obtain ⟨m, rfl⟩ : ∃ m, n = m + 1 := ⟨n - 1, by omega⟩
      rw [Nat.add_zero] at hok
      simp [attemptLoopM, hok]
  | succ d ih =>
      intro n a v hd hfail hok
      obtain ⟨m, rfl⟩ : ∃ m, n = m + 1 := ⟨n - 1, by omega⟩
      obtain ⟨e0, he0⟩ := hfail 0 (by omega)
      rw [Nat.add_zero] at he0
      have hm : m ≠ 0 := by omega
      have hrec := ih m (a + 1) v (by omega)
        (fun j hj => by
          obtain ⟨e, he⟩ := hfail (j + 1) (by omega)
          exact ⟨e, by rw [show a + 1 + j = a + (j + 1) from by omega]; exact he⟩)
        (by rw [show a + 1 + d = a + (d + 1) from by omega]; exact hok)
      simp [attemptLoopM, he0, hm, hrec]

theorem attemptLoopM_allfail (invoke : Nat → Except String Json) :
    ∀ (n a : Nat) (e : Nat → String), 0 < n →
      (∀ j, j < n → invoke (a + j) = .error (e j)) →
      attemptLoopM invoke a n = (errorObs (e (n - 1)), n) := by
  intro n
  induction n with
  | zero => omega
  | succ m ih =>
      intro a e _ hfail
      have he0 := hfail 0 (by omega)
      rw [Nat.add_zero] at he0
      by_cases hm : m = 0
      · subst hm
        simp [attemptLoopM, he0]
      · have hrec := ih (a + 1) (fun j => e (j + 1)) (by omega)
          (fun j hj => by
            have := hfail (j + 1) (by omega)
            rw [show a + 1 + j = a + (j + 1) from by omega]
            exact this)
        have hrec' : attemptLoopM invoke (a + 1) m = (errorObs (e m), m) := by
          rw [hrec]
          simp only []
          rw [show m - 1 + 1 = m from by omega]
        simp [attemptLoopM, he0, hm, hrec']

theorem attemptLoopQ_success (invoke : Nat → Except String Json) :
    ∀ (d n a : Nat) (v : Json), d < n →
      (∀ j, j < d → ∃ e, invoke (a + j) = .error e) →
      invoke (a + d) = .ok v →
      attemptLoopQ invoke a n =
        some (Json.obj [("status", Json.str "success"), ("result", v)], d + 1) := by
  intro d
  induction d with
  | zero =>
      intro n a v hd _ hok
      obtain ⟨m, rfl⟩ : ∃ m, n = m + 1 := ⟨n - 1, by omega⟩
      rw [Nat.add_zero] at hok
      simp [attemptLoopQ, hok]
  | succ d ih =>
      intro n a v hd hfail hok
      obtain ⟨m, rfl⟩ : ∃ m, n = m + 1 := ⟨n - 1, by omega⟩
      obtain ⟨e0, he0⟩ := hfail 0 (by omega)
      rw [Nat.add_zero] at he0
      have hm : m ≠ 0 := by omega
      have hrec := ih m (a + 1) v (by omega)
        (fun j hj => by
          obtain ⟨e, he⟩ := hfail (j + 1) (by omega)
          exact ⟨e, by rw [show a + 1 + j = a + (j + 1) from by omega]; exact he⟩)
        (by rw [show a + 1 + d = a + (d + 1) from by omega]; exact hok)
      simp [attemptLoopQ, he0, hm, hrec]

theorem attemptLoopQ_allfail (invoke : Nat → Except String Json) :
    ∀ (n a : Nat) (e : Nat → String), 0 < n →
      (∀ j, j < n → invoke (a + j) = .error (e j)) →
      attemptLoopQ invoke a n = some (Json.str (e (n - 1)), n) := by
  intro n
  induction n with
  | zero => omega
  | succ m ih =>
      intro a e _ hfail
      have he0 := hfail 0 (by omega)
      rw [Nat.add_zero] at he0
      by_cases hm : m = 0
      · subst hm
        simp [attemptLoopQ, he0]
      · have hrec := ih (a + 1) (fun j => e (j + 1)) (by omega)
          (fun j hj => by
            have := hfail (j + 1) (by omega)
            rw [show a + 1 + j = a + (j + 1) from by omega]
            exact this)
        have hrec' : attemptLoopQ invoke (a + 1) m = some (Json.str (e m), m) := by
          rw [hrec]
          simp only []
          rw [show m - 1 + 1 = m from by omega]
        simp [attemptLoopQ, he0, hm, hrec']

theorem attemptLoopQ_isSome (invoke : Nat → Except String Json) :
    ∀ (n a : Nat), 0 < n → ∃ r, attemptLoopQ invoke a n = some r := by
  intro n
  induction n with
  | zero => omega
  | succ m ih =>
      intro a _
      by_cases hm : m = 0
      · subst hm
        cases hv : invoke a with
        | ok v =>
            refine ⟨(Json.obj [("status", Json.str "success"), ("result", v)], 1), ?_⟩
            simp [attemptLoopQ, hv]
        | error e =>
            refine ⟨(Json.str e, 1), ?_⟩
            simp [attemptLoopQ, hv]
      · cases hv : invoke a with
        | ok v =>
            refine ⟨(Json.obj [("status", Json.str "success"), ("result", v)], 1), ?_⟩
            simp [attemptLoopQ, hv]
        | error e =>
            obtain ⟨r, hr⟩ := ih (a + 1) (by omega)
            refine ⟨(r.1, r.2 + 1), ?_⟩
            simp [attemptLoopQ, hv, hm, hr]

/-- Each `tool_calls` entry assigns exactly one key of the result dict — its
tool name — with an outcome and invocation count that do not depend on the
result dict accumulated so far. -/
theorem qwenProcessOne_sets (tools : List (String × Handle)) (maxRetries : Nat)
    (tc : QwenToolCall) (h : 0 < maxRetries) :
    ∃ o n, ∀ result, qwenProcessOne tools maxRetries tc result =
      (pyDictSet result (tc.name.getD "") o, n) := by
  cases hargs : qwenLoadArgs tc.arguments with
  | error e => exact ⟨Json.str e, 0, fun result => by simp [qwenProcessOne, hargs]⟩
  | ok args =>
      cases hreg : pyDictGet tools (tc.name.getD "") with
      | none =>
          refine ⟨Json.str ("执行工具" ++ tc.name.getD "" ++ "未被注册"), 0, ?_⟩
          intro result
          simp [qwenProcessOne, hargs, hreg]
      | some f =>
          obtain ⟨r, hr⟩ := attemptLoopQ_isSome (invokeOf f args) maxRetries 1 h
          refine ⟨r.1, r.2, ?_⟩
          intro result
          simp [qwenProcessOne, hargs, hreg, hr]

theorem pyDictGet_set_self {α : Type} (m : List (String × α)) (k : String)
    (v : α) : pyDictGet (pyDictSet m k v) k = some v := by
  induction m with
  | nil => simp [pyDictSet, pyDictGet]
  | cons kv rest ih =>
      obtain ⟨a, b⟩ := kv
      by_cases ha : a = k
      · subst ha
        simp [pyDictSet, pyDictGet]
      · simp [pyDictSet, pyDictGet, ha, ih]

theorem pyDictSet_fresh {α : Type} (m : List (String × α)) (k : String)
    (v : α) (h : pyDictGet m k = none) : pyDictSet m k v = m ++ [(k, v)] := by
  induction m with
  | nil => simp [pyDictSet]
  | cons kv rest ih =>
      obtain ⟨a, b⟩ := kv
      by_cases ha : a = k
      · subst ha
        simp [pyDictGet] at h
      · simp only [pyDictGet, if_neg ha] at h
        simp [pyDictSet, ha, ih h]

/-- Entries of the structured execution loop whose tool names all differ
from `k` leave the result dict's binding of `k` untouched. -/
theorem qwenLoop_preserves (tools : List (String × Handle)) (maxRetries : Nat)
    (h : 0 < maxRetries) :
    ∀ (tcs : List QwenToolCall) (result : List (String × Json)) (k : String),
      (∀ tc ∈ tcs, tc.name.getD "" ≠ k) →
      pyDictGet (qwenExecuteLoop tools maxRetries tcs result).1 k =
        pyDictGet result k := by
  intro tcs
  induction tcs with
  | nil =>
      intro result k _
      simp [qwenExecuteLoop]
  | cons tc rest ih =>
      intro result k hne
      obtain ⟨o, n, ho⟩ := qwenProcessOne_sets tools maxRetries tc h
      simp only [qwenExecuteLoop, ho result]
      rw [ih (pyDictSet result (tc.name.getD "") o) k
        (fun tc' htc' => hne tc' (List.mem_cons_of_mem _ htc'))]
      exact pyDictGet_set_ne result (tc.name.getD "") k o
        (hne tc (List.mem_cons_self _ _))

/-- With pairwise-distinct tool names, the structured execution loop appends
one entry per `tool_calls` element, keyed by its name in order, and each
entry's outcome is exactly what processing that element alone produces —
the other elements of the batch cannot affect it. -/
theorem qwenLoop_spec (tools : List (String × Handle)) (maxRetries : Nat)
    (h : 0 < maxRetries) :
    ∀ (tcs : List QwenToolCall) (result : List (String × Json)),
      (tcs.map fun tc => tc.name.getD "").Nodup →
      (∀ tc ∈ tcs, pyDictGet result (tc.name.getD "") = none) →
      ((qwenExecuteLoop tools maxRetries tcs result).1.map Prod.fst =
          result.map Prod.fst ++ tcs.map fun tc => tc.name.getD "") ∧
      ∀ tc ∈ tcs,
        pyDictGet (qwenExecuteLoop tools maxRetries tcs result).1
            (tc.name.getD "") =
          pyDictGet (qwenProcessOne tools maxRetries tc []).1
            (tc.name.getD "") := by
  intro tcs
  induction tcs with
  | nil =>
      intro result _ _
      simp [qwenExecuteLoop]
  | cons tc rest ih =>
      intro result hnd hfresh
      obtain ⟨o, n, ho⟩ := qwenProcessOne_sets tools maxRetries tc h
      have hname : pyDictGet result (tc.name.getD "") = none :=
        hfresh tc (List.mem_cons_self _ _)
      rw [List.map_cons, List.nodup_cons] at hnd
      obtain ⟨hhead, hnd'⟩ := hnd
      have hrestne : ∀ tc' ∈ rest, tc'.name.getD "" ≠ tc.name.getD "" := by
        intro tc' htc' heq
        have hm : tc.name.getD "" ∈ rest.map fun x => x.name.getD "" := by
          rw [← heq]
          exact List.mem_map_of_mem _ htc'
        exact hhead hm
      have hfresh' : ∀ tc' ∈ rest,
          pyDictGet (pyDictSet result (tc.name.getD "") o)
            (tc'.name.getD "") = none := by
        intro tc' htc'
        rw [pyDictGet_set_ne _ _ _ _ (fun he => hrestne tc' htc' he.symm)]
        exact hfresh tc' (List.mem_cons_of_mem _ htc')
      obtain ⟨ihk, ihv⟩ := ih (pyDictSet result (tc.name.getD "") o) hnd' hfresh'
      constructor
      · simp only [qwenExecuteLoop, ho result]
        rw [ihk, pyDictSet_fresh result _ o hname]
        simp
      · intro tc' htc'
        rcases List.mem_cons.mp htc' with heq | hmem
        · subst heq
          simp only [qwenExecuteLoop, ho result]
          rw [qwenLoop_preserves tools maxRetries h rest _ _ hrestne,
            pyDictGet_set_self, ho [], pyDictGet_set_self]
        · simp only [qwenExecuteLoop, ho result]
          exact ihv tc' hmem

/-! ### The schema derivation loop, characterized -/

theorem schemaFields_req_names (tm : PyTy → Option String) :
    ∀ (ps : List PyParam) (x : String),
      x ∈ (schemaFields tm ps).2 → x ∈ ps.map PyParam.name := by
  intro ps
  induction ps with
  | nil =>
      intro x hx
      simp [schemaFields] at hx
  | cons q rest ih =>
      intro x hx
      rcases hsf : schemaFields tm rest with ⟨props, req⟩
      simp only [schemaFields, hsf] at hx
      by_cases hqs : q.name = "self"
      · rw [if_pos hqs] at hx
        exact List.mem_cons_of_mem _ (ih x (by rw [hsf]; exact hx))
      · rw [if_neg hqs] at hx
        by_cases hd : q.hasDefault = true
        · simp only [hd, if_true] at hx
          exact List.mem_cons_of_mem _ (ih x (by rw [hsf]; exact hx))
        · simp only [hd, if_false] at hx
          rcases List.mem_cons.mp hx with rfl | hmem
          · exact List.mem_cons_self _ _
          · exact List.mem_cons_of_mem _ (ih x (by rw [hsf]; exact hmem))

theorem schemaFields_spec (tm : PyTy → Option String) :
    ∀ (ps : List PyParam) (p : PyParam), p ∈ ps → p.name ≠ "self" →
      (ps.map PyParam.name).Nodup →
      ((p.name, jsonTypeOf tm p.hint, paramDesc p.name (jsonTypeOf tm p.hint)) ∈
          (schemaFields tm ps).1 ∧
        (p.name ∈ (schemaFields tm ps).2 ↔ p.hasDefault = false)) := by
  intro ps
  induction ps with
  | nil =>
      intro p hp
      exact absurd hp (List.not_mem_nil p)
  | cons q rest ih =>
      intro p hp hself hnd
      rw [List.map_cons, List.nodup_cons] at hnd
      obtain ⟨hqn, hnd'⟩ := hnd
      rcases hsf : schemaFields tm rest with ⟨props, req⟩
      have hreq : ∀ x ∈ req, x ∈ rest.map PyParam.name := by
        intro x hx
        exact schemaFields_req_names tm rest x (by rw [hsf]; exact hx)
      rcases List.mem_cons.mp hp with rfl | hmem
      · simp only [schemaFields, hsf, if_neg hself]
        constructor
        · exact List.mem_cons_self _ _
        · by_cases hd : p.hasDefault = true
          · rw [if_pos hd]
            constructor
            · intro hin
              exact absurd (hreq _ hin) hqn
            · intro hfalse
              rw [hd] at hfalse
              exact absurd hfalse (by simp)
          · rw [if_neg hd]
            have hd' : p.hasDefault = false := by
              cases hv : p.hasDefault
              · rfl
              · exact absurd hv hd
            exact ⟨fun _ => hd', fun _ => List.mem_cons_self _ _⟩
      · have hih := ih p hmem hself hnd'
        rw [hsf] at hih
        have hne : p.name ≠ q.name := by
          intro he
          exact hqn (he ▸ List.mem_map_of_mem _ hmem)
        by_cases hqs : q.name = "self"
        · simp only [schemaFields, hsf, if_pos hqs]
          exact hih
        · simp only [schemaFields, hsf, if_neg hqs]
          constructor
          · exact List.mem_cons_of_mem _ hih.1
          · by_cases hd : q.hasDefault = true
            · rw [if_pos hd]
              exact hih.2
            · rw [if_neg hd]
              rw [← hih.2]
              constructor
              · intro hin
                rcases List.mem_cons.mp hin with he | hm
                · exact absurd he hne
                · exact hm
              · exact fun hm => List.mem_cons_of_mem _ hm

/-! ### The verified claims -/

/-- Claim C1: for every marker-format input with well-formed
`Thought:`/`Action:`/`Observation:` segments (a thought line free of the
`Action:` marker, and an embedded rendered JSON object free of escapes and
of the `Observation:` marker), `_parse_action` succeeds and the produced
call request's `tool` and `parameters` fields exactly equal those of the
embedded JSON object. -/
theorem claim_C1 (t : String) (ms : List (String × Json))
    (hsafe : safeJson (Json.obj ms) = true)
    (hA : ¬ actionTag <:+: ("Thought: " ++ t).toList)
    (hO : ¬ obsTag <:+: renderPairs ms) :
    ∃ kvs, parseActionM (mkMarker t (String.mk (renderJson (Json.obj ms)))) =
        some kvs ∧
      pyDictGet kvs "tool" = pyDictGet ms "tool" ∧
      pyDictGet kvs "parameters" = pyDictGet ms "parameters" := by
  obtain ⟨th, hth⟩ := parseActionM_mkMarker t ms hsafe hA hO
  exact ⟨_, hth,
    pyDictGet_set_ne ms "thought" "tool" _ (by decide),
    pyDictGet_set_ne ms "thought" "parameters" _ (by decide)⟩

/-- The embedded object of the C1 witness run. -/
def c1Pairs : List (String × Json) :=
  [("tool", Json.str "add"),
    ("parameters", Json.obj [("a", Json.num 3), ("b", Json.num 5)])]

theorem claim_C1_witness :
    ∃ kvs, parseActionM (mkMarker "计算 3+5"
        (String.mk (renderJson (Json.obj c1Pairs)))) = some kvs ∧
      pyDictGet kvs "tool" = pyDictGet c1Pairs "tool" ∧
      pyDictGet kvs "parameters" = pyDictGet c1Pairs "parameters" := by
  have hO : ¬ obsTag <:+: renderPairs c1Pairs := by
    simp [c1Pairs, renderPairs, renderJson, renderItems, intChars,
      natChars, charOfDigit]
    decide
  exact claim_C1 "计算 3+5" c1Pairs (by decide) (by decide) hO

/-- Claim C2: when the `Action:` marker is absent, or the captured action
text is not parseable JSON, `_parse_action` returns `none` (no decision)
rather than raising; when only the `Thought:` group is missing but a JSON
object is captured, extraction still succeeds and substitutes the fixed
placeholder `"No thought."`. -/
theorem claim_C2 :
    (∀ text : String, ¬ actionTag <:+: text.toList → parseActionM text = none) ∧
    (∀ (text : String) (g : List Char) (e : String),
      searchActionG text.toList = some g →
      pyJsonLoads (pyStripChars g) = .error e → parseActionM text = none) ∧
    (∀ (text : String) (g : List Char) (kvs : List (String × Json)),
      searchThoughtG text.toList = none →
      searchActionG text.toList = some g →
      pyJsonLoads (pyStripChars g) = .ok (Json.obj kvs) →
      parseActionM text =
        some (pyDictSet kvs "thought" (Json.str "No thought."))) := by
  refine ⟨?_, ?_, ?_⟩
  · intro text h
    simp [parseActionM, searchActionG_none text.data h]
  · intro text g e hg he
    simp only [parseActionM, hg]
    by_cases hie : (pyStripChars g).isEmpty
    · simp [hie]
    · simp [hie, he]
  · intro text g kvs hth hg hl
    have hie : (pyStripChars g).isEmpty = false := by
      cases hcase : pyStripChars g with
      | nil =>
          rw [hcase] at hl
          rw [show pyJsonLoads ([] : List Char) =
            .error "Expecting value" from rfl] at hl
          exact absurd hl (by simp)
      | cons c r => rfl
    simp only [parseActionM, hth, hg, hie, Bool.false_eq_true, if_false, hl]

theorem claim_C2_witness :
    parseActionM "hello there" = none ∧
    parseActionM "Action: \x7boops\x7d Observation: " = none ∧
    parseActionM "Action: \x7b\"a\": 1\x7d Observation: x" =
      some (pyDictSet [("a", Json.num 1)] "thought" (Json.str "No thought.")) :=
  ⟨claim_C2.1 "hello there" (by decide),
    claim_C2.2.1 "Action: \x7boops\x7d Observation: " "\x7boops\x7d".toList
      "Expecting property name" rfl rfl,
    claim_C2.2.2 "Action: \x7b\"a\": 1\x7d Observation: x"
      "\x7b\"a\": 1\x7d".toList [("a", Json.num 1)] rfl rfl rfl⟩

/-- Claim C3: for a resolved handle, both variants' execution succeeds on
attempt `k = d + 1 ≤ 3` with a status=success outcome carrying the handle's
value and exactly `k` invocations, and when the handle fails on every
attempt both variants invoke it exactly 3 times and produce a status=error
outcome carrying the last failure's message. -/
theorem claim_C3 (tools : List (String × Handle)) (action : List (String × Json))
    (name : String) (f : Handle) (toolInput : Json) (tc : QwenToolCall)
    (result : List (String × Json))
    (hname : pyDictGet action "tool" = some (Json.str name))
    (hf : pyDictGet tools name = some f)
    (hargs : (pyDictGet action "parameters").getD (Json.obj []) = toolInput)
    (htc : tc.name = some name)
    (htcargs : qwenLoadArgs tc.arguments = .ok toolInput) :
    (∀ d v, d < 3 →
      (∀ j, j < d → ∃ e, invokeOf f toolInput (1 + j) = .error e) →
      invokeOf f toolInput (1 + d) = .ok v →
      executeActionM tools 3 action = .ok (successObs v, d + 1) ∧
      qwenProcessOne tools 3 tc result =
        (pyDictSet result name
          (Json.obj [("status", Json.str "success"), ("result", v)]), d + 1)) ∧
    (∀ e : Nat → String,
      (∀ j, j < 3 → invokeOf f toolInput (1 + j) = .error (e j)) →
      executeActionM tools 3 action = .ok (errorObs (e 2), 3) ∧
      qwenProcessOne tools 3 tc result =
        (pyDictSet result name (Json.str (e 2)), 3)) := by
  constructor
  · intro d v hd hfail hok
    have hm := attemptLoopM_success (invokeOf f toolInput) d 3 1 v hd hfail hok
    have hq := attemptLoopQ_success (invokeOf f toolInput) d 3 1 v hd hfail hok
    constructor
    · simp only [executeActionM, hname, hargs, hf, hm]
    · simp only [qwenProcessOne, htcargs, htc, Option.getD_some, hf, hq]
  · intro e hfail
    have hm := attemptLoopM_allfail (invokeOf f toolInput) 3 1 e (by omega) hfail
    have hq := attemptLoopQ_allfail (invokeOf f toolInput) 3 1 e (by omega) hfail
    rw [show (3 : Nat) - 1 = 2 from rfl] at hm hq
    constructor
    · simp only [executeActionM, hname, hargs, hf, hm]
    · simp only [qwenProcessOne, htcargs, htc, Option.getD_some, hf, hq]

theorem claim_C3_witness :
    executeActionM
        [("add", fun _ attempt =>
          if 2 ≤ attempt then Except.ok (Json.num 8) else Except.error "boom")] 3
        [("tool", Json.str "add"), ("parameters", Json.obj [])] =
      .ok (successObs (Json.num 8), 2) ∧
    qwenProcessOne
        [("add", fun _ attempt =>
          if 2 ≤ attempt then Except.ok (Json.num 8) else Except.error "boom")] 3
        ⟨some "add", some "\x7b\x7d"⟩ [] =
      (pyDictSet [] "add"
        (Json.obj [("status", Json.str "success"), ("result", Json.num 8)]), 2) :=
  (claim_C3
    [("add", fun _ attempt =>
      if 2 ≤ attempt then Except.ok (Json.num 8) else Except.error "boom")]
    [("tool", Json.str "add"), ("parameters", Json.obj [])] "add"
    (fun _ attempt =>
      if 2 ≤ attempt then Except.ok (Json.num 8) else Except.error "boom")
    (Json.obj []) ⟨some "add", some "\x7b\x7d"⟩ [] rfl rfl rfl rfl rfl).1
    1 (Json.num 8) (by decide)
    (fun j hj => ⟨"boom", by
      have hj0 : j = 0 := by omega
      subst hj0
      rfl⟩)
    rfl

/-- Claim C4: a call request naming an unregistered tool yields a
descriptive "not registered" error outcome with zero handle invocations and
no retry, in both variants. -/
theorem claim_C4 (tools : List (String × Handle)) (maxRetries : Nat)
    (action : List (String × Json)) (name : String) (tc : QwenToolCall)
    (args : Json) (result : List (String × Json))
    (hname : pyDictGet action "tool" = some (Json.str name))
    (hreg : pyDictGet tools name = none)
    (htc : tc.name = some name)
    (hargs : qwenLoadArgs tc.arguments = .ok args) :
    executeActionM tools maxRetries action =
      .ok ("Error: 工具 '" ++ name ++ "' 未注册或不存在。", 0) ∧
    qwenProcessOne tools maxRetries tc result =
      (pyDictSet result name (Json.str ("执行工具" ++ name ++ "未被注册")), 0) := by
  constructor
  · simp only [executeActionM, hname, hreg]
    rfl
  · simp only [qwenProcessOne, hargs, htc, Option.getD_some, hreg]

theorem claim_C4_witness :
    executeActionM ([] : List (String × Handle)) 3
        [("tool", Json.str "nope")] =
      .ok ("Error: 工具 '" ++ "nope" ++ "' 未注册或不存在。", 0) ∧
    qwenProcessOne ([] : List (String × Handle)) 3
        ⟨some "nope", some "\x7b\x7d"⟩ [] =
      (pyDictSet [] "nope" (Json.str ("执行工具" ++ "nope" ++ "未被注册")), 0) :=
  claim_C4 [] 3 [("tool", Json.str "nope")] "nope"
    ⟨some "nope", some "\x7b\x7d"⟩ (Json.obj []) [] rfl rfl rfl rfl

/-- Claim C5 (amended: the claim as frozen fails when two requests share a
tool name — see the counterexample; it holds when the batch's tool names
are pairwise distinct): with distinct names and a positive retry budget,
every request contributes exactly one outcome entry, keyed by its name in
order, and each entry's outcome equals what processing that request alone
produces — a failure in one request never aborts or alters the others. -/
theorem claim_C5 (tools : List (String × Handle)) (maxRetries : Nat)
    (tcs : List QwenToolCall) (h : 0 < maxRetries)
    (hnd : (tcs.map fun tc => tc.name.getD "").Nodup) :
    ((qwenExecuteLoop tools maxRetries tcs []).1.map Prod.fst =
      tcs.map fun tc => tc.name.getD "") ∧
    ∀ tc ∈ tcs,
      pyDictGet (qwenExecuteLoop tools maxRetries tcs []).1 (tc.name.getD "") =
        pyDictGet (qwenProcessOne tools maxRetries tc []).1 (tc.name.getD "") := by
  have hs := qwenLoop_spec tools maxRetries h tcs [] hnd (fun tc _ => rfl)
  simpa using hs

theorem claim_C5_witness :
    ((qwenExecuteLoop ([] : List (String × Handle)) 3
        [⟨some "a", none⟩, ⟨some "b", none⟩] []).1.map Prod.fst =
      [⟨some "a", none⟩, (⟨some "b", none⟩ : QwenToolCall)].map
        fun tc => tc.name.getD "") ∧
    ∀ tc ∈ [⟨some "a", none⟩, (⟨some "b", none⟩ : QwenToolCall)],
      pyDictGet (qwenExecuteLoop ([] : List (String × Handle)) 3
          [⟨some "a", none⟩, ⟨some "b", none⟩] []).1 (tc.name.getD "") =
        pyDictGet (qwenProcessOne ([] : List (String × Handle)) 3
          tc []).1 (tc.name.getD "") :=
  claim_C5 [] 3 [⟨some "a", none⟩, ⟨some "b", none⟩] (by decide) (by decide)

/-- Claim C5, counterexample to the frozen wording: two call requests that
name the same tool produce a single result entry — the first request's
outcome is discarded by the dict overwrite, so not every request yields an
outcome of its own. -/
theorem claim_C5_counterexample :
    ((qwenExecuteLoop ([] : List (String × Handle)) 3
        [⟨some "add", none⟩, ⟨some "add", some "true"⟩] []).1).length = 1 ∧
    ([⟨some "add", none⟩, (⟨some "add", some "true"⟩ : QwenToolCall)]).length
      = 2 :=
  ⟨rfl, rfl⟩

/-- Claim C6: every completed run cycle of the structured variant resets the
conversation state to the single-system-message initial form (whatever the
tools, retry budget, backends, prior messages and input), so a second
sequential request starts from a state carrying nothing of the first beyond
the fixed system preamble. -/
theorem claim_C6 (llm : List (String × String) → QwenResponse)
    (gen : List (String × String) → String) (ag : QwenAgent)
    (u1 u2 : String) :
    (qwenRun llm gen ag u1).1 = { ag with messages := initMessages } ∧
    (qwenRun llm gen (qwenRun llm gen ag u1).1 u2) =
      qwenRun llm gen { ag with messages := initMessages } u2 := by
  have h1 : ∀ (a : QwenAgent) (u : String),
      (qwenRun llm gen a u).1 = { a with messages := initMessages } := by
    intro a u
    simp only [qwenRun]
    cases parseActionQwen (llm (a.messages ++ [("user", u)])) <;> rfl
  refine ⟨h1 ag u1, ?_⟩
  rw [h1 ag u1]

theorem claim_C6_witness :
    (qwenRun (fun _ => ⟨[]⟩) (fun _ => "done") ⟨[], [], 3, initMessages⟩
        "hi").1 =
      { tools := ([] : List (String × Handle)), toolSchemas := [],
        maxRetries := 3, messages := initMessages } ∧
    (qwenRun (fun _ => ⟨[]⟩) (fun _ => "done")
        (qwenRun (fun _ => ⟨[]⟩) (fun _ => "done")
          ⟨[], [], 3, initMessages⟩ "hi").1 "again") =
      qwenRun (fun _ => ⟨[]⟩) (fun _ => "done")
        { tools := ([] : List (String × Handle)), toolSchemas := [],
          maxRetries := 3, messages := initMessages } "again" :=
  claim_C6 (fun _ => ⟨[]⟩) (fun _ => "done") ⟨[], [], 3, initMessages⟩
    "hi" "again"

/-- Claim C7 (amended: a malformed-arguments entry is NOT given the retry
treatment of a handle failure — see the counterexample; instead the decode
error is caught by the outer handler): a tool-call entry whose arguments
string fails JSON decoding is surfaced as that entry's error outcome with
zero handle invocations and no retry, and the remaining entries of the
batch are processed exactly as before, from the updated result dict. -/
theorem claim_C7 (tools : List (String × Handle)) (maxRetries : Nat)
    (tc : QwenToolCall) (e : String) (result : List (String × Json))
    (he : qwenLoadArgs tc.arguments = .error e) :
    qwenProcessOne tools maxRetries tc result =
      (pyDictSet result (tc.name.getD "") (Json.str e), 0) ∧
    ∀ rest, qwenExecuteLoop tools maxRetries (tc :: rest) result =
      qwenExecuteLoop tools maxRetries rest
        (pyDictSet result (tc.name.getD "") (Json.str e)) := by
  have h1 : qwenProcessOne tools maxRetries tc result =
      (pyDictSet result (tc.name.getD "") (Json.str e), 0) := by
    simp [qwenProcessOne, he]
  refine ⟨h1, ?_⟩
  intro rest
  simp only [qwenExecuteLoop, h1]
  simp

theorem claim_C7_witness :
    qwenProcessOne ([] : List (String × Handle)) 3 ⟨some "add", some "oops"⟩
        [] =
      (pyDictSet [] "add" (Json.str "Expecting value"), 0) ∧
    ∀ rest, qwenExecuteLoop ([] : List (String × Handle)) 3
        (⟨some "add", some "oops"⟩ :: rest) [] =
      qwenExecuteLoop ([] : List (String × Handle)) 3 rest
        (pyDictSet [] "add" (Json.str "Expecting value")) :=
  claim_C7 [] 3 ⟨some "add", some "oops"⟩ "Expecting value" [] rfl

/-- Claim C7, counterexample to the frozen wording: with the same registered
tool, a malformed-arguments entry is finished with zero handle invocations
(even though its handle would have succeeded), while a genuine invocation
failure is retried 3 times — the two failure kinds are not treated
identically. -/
theorem claim_C7_counterexample :
    qwenProcessOne [("add", fun _ _ => Except.ok (Json.num 8))] 3
        ⟨some "add", some "oops"⟩ [] =
      ([("add", Json.str "Expecting value")], 0) ∧
    qwenProcessOne [("add", fun _ _ => Except.error "boom")] 3
        ⟨some "add", some "\x7b\x7d"⟩ [] =
      ([("add", Json.str "boom")], 3) ∧
    (0 : Nat) ≠ 3 :=
  ⟨rfl, rfl, by decide⟩

/-- The mock model response of the addition path, as `_mock_llm_response`
returns it. -/
def c8Resp : String :=
  "Thought: 用户想计算 3+5，我应该使用计算器。\nAction: \x7b\"tool\": \"add\", \"parameters\": \x7b\"a\": 3, \"b\": 5\x7d\x7d\nObservation: "

/-- The action dict `_parse_action` extracts from `c8Resp`. -/
def c8Action : List (String × Json) :=
  [("tool", Json.str "add"),
    ("parameters", Json.obj [("a", Json.num 3), ("b", Json.num 5)]),
    ("thought", Json.str "用户想计算 3+5，我应该使用计算器。")]

/-- Claim C8: when the decided tool (`add`, on the non-weather mock path) is
absent from the registry, the run cycle still completes without an
exception: execution produces the "not registered" error outcome with zero
invocations, and the final reply is `_mock_generate_reply` applied to that
error outcome (whose non-JSON shape lands it on the fixed fallback reply) —
neither a crash nor a silent drop. -/
theorem claim_C8 (ag : MarkerAgent) (u : String)
    (hw : hasInfix "天气".toList (u.toList.map pyLowerChar) = false)
    (hadd : pyDictGet ag.tools "add" = none) :
    executeActionM ag.tools ag.maxRetries
        ((parseActionM (mockLlmResponse u)).getD []) =
      .ok ("Error: 工具 'add' 未注册或不存在。", 0) ∧
    runMarker ag u =
      .ok (mockGenerateReply "用户想计算 3+5，我应该使用计算器。"
        "Error: 工具 'add' 未注册或不存在。") ∧
    runMarker ag u = .ok "⚠️ 无法解析执行结果。" := by
  have hresp : mockLlmResponse u = c8Resp := by
    unfold mockLlmResponse
    rw [hw]
    rfl
  have hparse : parseActionM c8Resp = some c8Action := rfl
  have hexec : executeActionM ag.tools ag.maxRetries c8Action =
      .ok ("Error: 工具 'add' 未注册或不存在。", 0) := by
    rw [show executeActionM ag.tools ag.maxRetries c8Action =
      (match pyDictGet ag.tools "add" with
        | none => .ok ("Error: 工具 'add' 未注册或不存在。", 0)
        | some f => .ok (attemptLoopM
            (invokeOf f (Json.obj [("a", Json.num 3), ("b", Json.num 5)]))
            1 ag.maxRetries)) from rfl, hadd]
  have hrun : runMarker ag u =
      .ok (mockGenerateReply "用户想计算 3+5，我应该使用计算器。"
        "Error: 工具 'add' 未注册或不存在。") := by
    simp only [runMarker, hresp, hparse]
    rw [show pyDictGet c8Action "thought" =
      some (Json.str "用户想计算 3+5，我应该使用计算器。") from rfl]
    rw [hexec]
    rfl
  refine ⟨?_, hrun, ?_⟩
  · rw [hresp, hparse]
    exact hexec
  · rw [hrun]
    rfl

theorem claim_C8_witness :
    executeActionM (([] : List (String × Handle))) 3
        ((parseActionM (mockLlmResponse "hi")).getD []) =
      .ok ("Error: 工具 'add' 未注册或不存在。", 0) ∧
    runMarker ⟨[], [], 3⟩ "hi" =
      .ok (mockGenerateReply "用户想计算 3+5，我应该使用计算器。"
        "Error: 工具 'add' 未注册或不存在。") ∧
    runMarker ⟨[], [], 3⟩ "hi" = .ok "⚠️ 无法解析执行结果。" :=
  claim_C8 ⟨[], [], 3⟩ "hi" rfl rfl

/-- Claim C9: for any type map, the schema derived by `register_tool` lists a
non-`self` parameter as required exactly when it has no default value,
assigns it the type tag mapped from its annotation, and falls back to the
string type tag when the annotation is absent or unrecognized. -/
theorem claim_C9 (tm : PyTy → Option String) (f : PyFunc) (p : PyParam)
    (hp : p ∈ f.params) (hself : p.name ≠ "self")
    (hnd : (f.params.map PyParam.name).Nodup) :
    ((p.name, jsonTypeOf tm p.hint, paramDesc p.name (jsonTypeOf tm p.hint)) ∈
      (mkToolSchema tm f).properties) ∧
    (p.name ∈ (mkToolSchema tm f).required ↔ p.hasDefault = false) ∧
    jsonTypeOf tm none = "string" ∧
    (∀ ty, tm ty = none → jsonTypeOf tm (some ty) = "string") := by
  obtain ⟨h1, h2⟩ := schemaFields_spec tm f.params p hp hself hnd
  exact ⟨h1, h2, rfl, fun ty hty => by simp [jsonTypeOf, hty]⟩

theorem claim_C9_witness :
    (("a", jsonTypeOf typeMapCore (some PyTy.int),
        paramDesc "a" (jsonTypeOf typeMapCore (some PyTy.int))) ∈
      (mkToolSchema typeMapCore
        ⟨"add", some " 加法 ",
          [⟨"self", none, false⟩, ⟨"a", some PyTy.int, false⟩,
            ⟨"b", some (PyTy.other "Foo"), true⟩]⟩).properties) ∧
    ("a" ∈ (mkToolSchema typeMapCore
        ⟨"add", some " 加法 ",
          [⟨"self", none, false⟩, ⟨"a", some PyTy.int, false⟩,
            ⟨"b", some (PyTy.other "Foo"), true⟩]⟩).required ↔
      (false : Bool) = false) ∧
    jsonTypeOf typeMapCore none = "string" ∧
    (∀ ty, typeMapCore ty = none →
      jsonTypeOf typeMapCore (some ty) = "string") :=
  claim_C9 typeMapCore
    ⟨"add", some " 加法 ",
      [⟨"self", none, false⟩, ⟨"a", some PyTy.int, false⟩,
        ⟨"b", some (PyTy.other "Foo"), true⟩]⟩
    ⟨"a", some PyTy.int, false⟩ (by decide) (by decide) (by decide)

/-- Claim C10: registering a second function with an already-used name
raises nothing: the tools mapping silently replaces the stored handle so
resolution yields only the later one, while the schema list keeps both
descriptors, which then share one name — in both variants. -/
theorem claim_C10 (ag : MarkerAgent) (agq : QwenAgent) (f g : PyFunc)
    (hf hg : Handle) (hname : g.name = f.name) :
    pyDictGet (registerToolM (registerToolM ag f hf) g hg).tools f.name =
      some hg ∧
    (registerToolM (registerToolM ag f hf) g hg).toolSchemas =
      ag.toolSchemas ++ [mkToolSchema typeMapCore f, mkToolSchema typeMapCore g] ∧
    (mkToolSchema typeMapCore f).name = f.name ∧
    (mkToolSchema typeMapCore g).name = f.name ∧
    pyDictGet (registerToolQ (registerToolQ agq f hf) g hg).tools f.name =
      some hg ∧
    (registerToolQ (registerToolQ agq f hf) g hg).toolSchemas =
      agq.toolSchemas ++ [mkToolSchema typeMapQwen f, mkToolSchema typeMapQwen g] := by
  refine ⟨?_, ?_, rfl, hname, ?_, ?_⟩
  · show pyDictGet (pyDictSet (pyDictSet ag.tools f.name hf) g.name hg)
      f.name = some hg
    rw [hname, pyDictGet_set_self]
  · show (ag.toolSchemas ++ [mkToolSchema typeMapCore f]) ++
      [mkToolSchema typeMapCore g] = _
    rw [List.append_assoc]
    rfl
  · show pyDictGet (pyDictSet (pyDictSet agq.tools f.name hf) g.name hg)
      f.name = some hg
    rw [hname, pyDictGet_set_self]
  · show (agq.toolSchemas ++ [mkToolSchema typeMapQwen f]) ++
      [mkToolSchema typeMapQwen g] = _
    rw [List.append_assoc]
    rfl

theorem claim_C10_witness :
    pyDictGet (registerToolM (registerToolM ⟨[], [], 3⟩
        ⟨"add", none, []⟩ (fun _ _ => Except.ok Json.null))
        ⟨"add", some "v2", []⟩ (fun _ _ => Except.ok (Json.num 1))).tools
      "add" = some (fun _ _ => Except.ok (Json.num 1)) ∧
    (registerToolM (registerToolM ⟨[], [], 3⟩
        ⟨"add", none, []⟩ (fun _ _ => Except.ok Json.null))
        ⟨"add", some "v2", []⟩ (fun _ _ => Except.ok (Json.num 1))).toolSchemas =
      [] ++ [mkToolSchema typeMapCore ⟨"add", none, []⟩,
        mkToolSchema typeMapCore ⟨"add", some "v2", []⟩] ∧
    (mkToolSchema typeMapCore ⟨"add", none, []⟩).name = "add" ∧
    (mkToolSchema typeMapCore ⟨"add", some "v2", []⟩).name = "add" ∧
    pyDictGet (registerToolQ (registerToolQ ⟨[], [], 3, initMessages⟩
        ⟨"add", none, []⟩ (fun _ _ => Except.ok Json.null))
        ⟨"add", some "v2", []⟩ (fun _ _ => Except.ok (Json.num 1))).tools
      "add" = some (fun _ _ => Except.ok (Json.num 1)) ∧
    (registerToolQ (registerToolQ ⟨[], [], 3, initMessages⟩
        ⟨"add", none, []⟩ (fun _ _ => Except.ok Json.null))
        ⟨"add", some "v2", []⟩ (fun _ _ => Except.ok (Json.num 1))).toolSchemas =
      [] ++ [mkToolSchema typeMapQwen ⟨"add", none, []⟩,
        mkToolSchema typeMapQwen ⟨"add", some "v2", []⟩] :=
  claim_C10 ⟨[], [], 3⟩ ⟨[], [], 3, initMessages⟩
    ⟨"add", none, []⟩ ⟨"add", some "v2", []⟩
    (fun _ _ => Except.ok Json.null) (fun _ _ => Except.ok (Json.num 1)) rfl
